import Mathlib

/-!
# Canary scheduler: a shallow embedding of `src/game/scheduling/scheduler.cpp`

The scheduler owns a priority queue of tasks keyed by their deadline
(`eventList`), the set of identities that are still going to run
(`eventIds`), the identity counter (`lastEventId`) and the lifecycle state
of its thread.  Every operation below is the body of the corresponding
member function, run as one atomic step: each of them works under
`eventLock`, and the call of the dispatcher that follows the critical
section of `threadMain` is part of that step.
-/

namespace Canary

/-! ## Data model -/

/-- Modelled from the spec: the lifecycle state of the scheduler thread. The
enumeration is declared in a header that is not among the sources; the code
names `THREAD_STATE_RUNNING` and `THREAD_STATE_TERMINATED`, and
`THREAD_STATE_CLOSING` stands for any value that is neither. -/
inductive ThreadState
  | THREAD_STATE_RUNNING
  | THREAD_STATE_CLOSING
  | THREAD_STATE_TERMINATED
  deriving DecidableEq, Repr

/-- Modelled from the spec: SchedulerTask, declared in `scheduler.h`, which is
not among the sources. `addr` is the address of the object (the scheduler
handles `SchedulerTask*`), `eventId` the 32-bit identity (`getEventId`),
`cycle` the deadline (`getCycle`), `dontExpire` the expiry policy set by
`setDontExpire`. The callable body plays no part in the scheduler. -/
structure SchedulerTask where
  addr : Nat
  eventId : Nat
  cycle : Nat
  dontExpire : Bool
  deriving DecidableEq, Repr

/-- The member function `setEventId` of a task. -/
def SchedulerTask.setEventId (task : SchedulerTask) (id : Nat) : SchedulerTask :=
  { task with eventId := id }

/-- The member function `setDontExpire` of a task. -/
def SchedulerTask.setDontExpire (task : SchedulerTask) : SchedulerTask :=
  { task with dontExpire := true }

/-- Modelled from the spec: TaskComparator, the ordering of the heap, declared
in `scheduler.h`: the heap is keyed by deadline and the earliest deadline has
the highest priority, so `lhs` is ordered below `rhs` when its deadline is
later. -/
def TaskComparator (lhs rhs : SchedulerTask) : Bool :=
  decide (lhs.cycle > rhs.cycle)

/-! ## `std::priority_queue<SchedulerTask*, ..., TaskComparator>`

The container is modelled by its contents, in the order of insertion. `top`
is an entry that `TaskComparator` orders below no other entry; among entries
of equal deadline the standard leaves the choice to the implementation, and
the model takes the one inserted first. -/

/-- The `push` operation of the priority queue. -/
def PriorityQueue.push (q : List SchedulerTask) (task : SchedulerTask) : List SchedulerTask :=
  q ++ [task]

/-- The `empty` operation of the priority queue. -/
def PriorityQueue.empty (q : List SchedulerTask) : Bool :=
  q.isEmpty

/-- The `top` operation of the priority queue (`none` on an empty queue, where
the C++ call is undefined; the scheduler never calls it there). -/
def PriorityQueue.top : List SchedulerTask → Option SchedulerTask
  | [] => none
  | t :: ts =>
    match PriorityQueue.top ts with
    | none => some t
    | some u => if TaskComparator t u then some u else some t

/-- The `pop` operation of the priority queue: removes the entry that `top`
returns. -/
def PriorityQueue.pop : List SchedulerTask → List SchedulerTask
  | [] => []
  | t :: ts =>
    match PriorityQueue.top ts with
    | none => []
    | some u => if TaskComparator t u then t :: PriorityQueue.pop ts else ts

/-- The state of a `Scheduler`: the thread state of its base class and the
three members guarded by `eventLock`. -/
structure Scheduler where
  state : ThreadState
  lastEventId : Nat
  eventList : List SchedulerTask
  eventIds : Finset Nat
  deriving DecidableEq

/-- The scheduler as constructed: running, counter 0, nothing scheduled. -/
def Scheduler.init : Scheduler :=
  { state := ThreadState.THREAD_STATE_RUNNING, lastEventId := 0, eventList := [], eventIds := ∅ }

/-! ## `Scheduler::addEvent` -/

/-- What a call of `addEvent` leaves behind: the scheduler, the value
returned, whether `eventSignal.notify_one()` is called, and the task as the
scheduler keeps it (`none` when the task was deleted). -/
structure AddEventResult where
  sched : Scheduler
  ret : Nat
  do_signal : Bool
  task : Option SchedulerTask
  deriving DecidableEq

/-- The pre-increment `++lastEventId` on a `uint32_t`, followed by the skip of
the value 0. -/
def nextEventId (lastEventId : Nat) : Nat :=
  if (lastEventId + 1) % 2 ^ 32 = 0 then 1 else (lastEventId + 1) % 2 ^ 32

/-- The function `Scheduler::addEvent`. The test `task == eventList.top()`
compares two pointers; a task of the model is the object with its address, so
the test is the equality of tasks. -/
def Scheduler.addEvent (s : Scheduler) (task : SchedulerTask) : AddEventResult :=
  if s.state = ThreadState.THREAD_STATE_RUNNING then
    -- check if the event has a valid id, if not generate one
    let lastEventId := if task.eventId = 0 then nextEventId s.lastEventId else s.lastEventId
    let task := if task.eventId = 0 then task.setEventId lastEventId else task
    -- insert the event id in the list of active events
    let eventIds := insert task.eventId s.eventIds
    -- add the event to the queue
    let eventList := PriorityQueue.push s.eventList task
    -- if the list was empty or this event is the top in the list we have to signal it
    let do_signal := decide (some task = PriorityQueue.top eventList)
    { sched := { state := s.state, lastEventId := lastEventId,
                 eventList := eventList, eventIds := eventIds },
      ret := task.eventId, do_signal := do_signal, task := some task }
  else
    { sched := s, ret := 0, do_signal := false, task := none }

/-! ## `Scheduler::stopEvent` -/

/-- The function `Scheduler::stopEvent`: the scheduler afterwards and the
value returned. -/
def Scheduler.stopEvent (s : Scheduler) (eventid : Nat) : Scheduler × Bool :=
  if eventid = 0 then
    (s, false)
  else if eventid ∉ s.eventIds then
    (s, false)
  else
    ({ s with eventIds := s.eventIds.erase eventid }, true)

/-! ## The waiting loop, `Scheduler::threadMain` -/

/-- The result of a wait on the condition variable, `std::cv_status`. -/
inductive cv_status
  | no_timeout
  | timeout
  deriving DecidableEq, Repr

/-- What one pass of the loop leaves behind: the scheduler, the call
`g_dispatcher().addTask(task, flag)` it made, if any, and the task it
deleted, if any. -/
structure ThreadMainResult where
  sched : Scheduler
  dispatched : Option (SchedulerTask × Bool)
  deleted : Option SchedulerTask
  deriving DecidableEq

/-- One pass of the loop of `Scheduler::threadMain` from the point where the
wait has returned `ret` and the mutex is locked again. -/
def Scheduler.threadMain (s : Scheduler) (ret : cv_status) : ThreadMainResult :=
  if ret = cv_status.timeout ∧ ¬ PriorityQueue.empty s.eventList = true then
    match PriorityQueue.top s.eventList with
    | none => { sched := s, dispatched := none, deleted := none }
    | some task =>
      let eventList := PriorityQueue.pop s.eventList
      -- check if the event was stopped
      if task.eventId ∉ s.eventIds then
        { sched := { s with eventList := eventList }, dispatched := none, deleted := some task }
      else
        { sched := { s with eventList := eventList, eventIds := s.eventIds.erase task.eventId },
          dispatched := some (task.setDontExpire, true), deleted := none }
  else
    { sched := s, dispatched := none, deleted := none }

/-! ## `Scheduler::shutdown` -/

/-- The loop `while (!eventList.empty()) { delete eventList.top(); eventList.pop(); }`,
run for at most `fuel` passes: the queue that is left and the tasks deleted. -/
def drain : Nat → List SchedulerTask → List SchedulerTask × List SchedulerTask
  | 0, q => (q, [])
  | fuel + 1, q =>
    if PriorityQueue.empty q then (q, [])
    else
      match PriorityQueue.top q with
      | none => (q, [])
      | some task =>
        let r := drain fuel (PriorityQueue.pop q)
        (r.1, task :: r.2)

/-- The function `Scheduler::shutdown`: the scheduler afterwards and the tasks
it deleted. The loop runs with one pass of fuel per entry of the queue. -/
def Scheduler.shutdown (s : Scheduler) : Scheduler × List SchedulerTask :=
  let r := drain s.eventList.length s.eventList
  ({ state := ThreadState.THREAD_STATE_TERMINATED, lastEventId := s.lastEventId,
     eventList := r.1, eventIds := ∅ }, r.2)

/-! ## Executions -/

/-- The operations that act on a scheduler: the three member functions called
by producers and a pass of the waiting loop with the outcome of its wait. -/
inductive Op
  | addEvent (task : SchedulerTask)
  | stopEvent (eventid : Nat)
  | threadMain (ret : cv_status)
  | shutdown
  deriving DecidableEq

/-- What an operation did, as seen from outside the scheduler. -/
inductive Event
  | added (ret : Nat) (do_signal : Bool)
  | stopped (ret : Bool)
  | dispatched (task : SchedulerTask) (flag : Bool)
  | dropped (task : SchedulerTask)
  | idle
  | terminated (deleted : List SchedulerTask)
  deriving DecidableEq

/-- One operation: the scheduler afterwards and what was observed. -/
def step (s : Scheduler) : Op → Scheduler × Event
  | Op.addEvent task =>
    let r := s.addEvent task
    (r.sched, Event.added r.ret r.do_signal)
  | Op.stopEvent eventid =>
    let r := s.stopEvent eventid
    (r.1, Event.stopped r.2)
  | Op.threadMain ret =>
    let r := s.threadMain ret
    (r.sched,
      match r.dispatched, r.deleted with
      | some d, _ => Event.dispatched d.1 d.2
      | none, some t => Event.dropped t
      | none, none => Event.idle)
  | Op.shutdown =>
    let r := s.shutdown
    (r.1, Event.terminated r.2)

/-- A sequence of operations from `s`: the final scheduler and the
observations in order. -/
def run (s : Scheduler) : List Op → Scheduler × List Event
  | [] => (s, [])
  | op :: ops =>
    let r := step s op
    let rest := run r.1 ops
    (rest.1, r.2 :: rest.2)

/-- The tasks handed to the dispatcher in a list of observations, in order. -/
def dispatchedTasks : List Event → List SchedulerTask
  | [] => []
  | Event.dispatched task _ :: es => task :: dispatchedTasks es
  | _ :: es => dispatchedTasks es

/-- The tasks handed to `addEvent` by a sequence of operations, in order. -/
def tasksOf : List Op → List SchedulerTask
  | [] => []
  | Op.addEvent task :: ops => task :: tasksOf ops
  | _ :: ops => tasksOf ops

/-- The task that an operation puts in the heap, if it puts one: for an
`addEvent` that is accepted, the task with its final identity. -/
def storedBy (s : Scheduler) : Op → List SchedulerTask
  | Op.addEvent task => (s.addEvent task).task.toList
  | _ => []

/-- The tasks that a sequence of operations from `s` puts in the heap. -/
def storedTasks (s : Scheduler) : List Op → List SchedulerTask
  | [] => []
  | op :: ops => storedBy s op ++ storedTasks (step s op).1 ops

/-- A run of `n` passes of the waiting loop, each after a wait that timed
out. -/
def timeouts (n : Nat) : List Op :=
  List.replicate n (Op.threadMain cv_status.timeout)

/-- The scheduler after the tasks `ts` have been handed to `addEvent` one
after the other. -/
def scheduleAll (s : Scheduler) (ts : List SchedulerTask) : Scheduler :=
  (run s (ts.map Op.addEvent)).1

/-- Every entry of the heap is pending and no two entries share an identity:
the state of a scheduler whose tasks have distinct identities and have not
been cancelled. -/
def Scheduler.AllPending (s : Scheduler) : Prop :=
  (s.eventList.map SchedulerTask.eventId).Nodup ∧ ∀ t ∈ s.eventList, t.eventId ∈ s.eventIds

/-- A scheduler that is terminated and holds nothing. -/
def Scheduler.Drained (s : Scheduler) : Prop :=
  s.state = ThreadState.THREAD_STATE_TERMINATED ∧ s.eventList = [] ∧ s.eventIds = ∅

/-- The part of `Scheduler::stopEvent` that runs under `eventLock`: the lookup
of the identity in `eventIds`, without the early return for identity 0 that
precedes the lock. -/
def Scheduler.stopEventLookup (s : Scheduler) (eventid : Nat) : Scheduler × Bool :=
  if eventid ∉ s.eventIds then
    (s, false)
  else
    ({ s with eventIds := s.eventIds.erase eventid }, true)

/-- The call `std::condition_variable::wait(lock, pred)`, which the standard
defines as `while (!pred()) wait(lock);`: whether the thread blocks, given the
value of the predicate when the call is entered. -/
def waitBlocks (pred : Bool) : Bool :=
  !pred

/-- How a pass of the loop of `threadMain` comes to the point where the mutex
is locked again: the loop has ended, the wait returned without blocking, the
thread blocked until it was notified, or it blocked in `wait_until` with the
deadline given. -/
inductive LoopWait
  | exited
  | returned_at_once
  | blocked
  | blocked_until (cycle : Nat)
  deriving DecidableEq, Repr

/-- The head of a pass of the loop of `Scheduler::threadMain`: the test of the
`while`, and the wait chosen by `if (eventList.empty())`. In the first branch
the predicate handed to `wait` is `eventList.empty()`. -/
def Scheduler.threadMainWait (s : Scheduler) : LoopWait :=
  if s.state = ThreadState.THREAD_STATE_TERMINATED then
    LoopWait.exited
  else if PriorityQueue.empty s.eventList then
    if waitBlocks (PriorityQueue.empty s.eventList) then LoopWait.blocked
    else LoopWait.returned_at_once
  else
    match PriorityQueue.top s.eventList with
    | none => LoopWait.returned_at_once
    | some task => LoopWait.blocked_until task.cycle

/-- The bookkeeping of a scheduler whose identities all come from its counter,
against the set `C` of the identities cancelled so far: the entries of the heap
have distinct identities, none above the counter; every pending identity is
carried by an entry; an entry is pending exactly when its identity has not
been cancelled; and only identities handed out have been cancelled. -/
def Scheduler.Tracked (s : Scheduler) (C : Nat → Prop) : Prop :=
  (s.eventList.map SchedulerTask.eventId).Nodup ∧
  (∀ t ∈ s.eventList, t.eventId ≤ s.lastEventId) ∧
  (∀ id ∈ s.eventIds, ∃ t ∈ s.eventList, t.eventId = id) ∧
  (∀ t ∈ s.eventList, (t.eventId ∈ s.eventIds ↔ ¬ C t.eventId)) ∧
  (∀ id, C id → id ≤ s.lastEventId)

/-! ## `ScriptEnvironment` (`src/lua/scripts/script_environment.cpp`) -/

/-- Modelled from the spec: an `Item` as far as the lookups of the scripting
environment go (the class is declared in `items/item.h`, not among the
sources): the address of the object and what `isRemoved()` answers. The
pointers kept in the tables are taken to be non-null. -/
structure Item where
  addr : Nat
  removed : Bool
  deriving DecidableEq, Repr

/-- Modelled from the spec: a `Creature`, by the address of the object. -/
structure Creature where
  addr : Nat
  deriving DecidableEq, Repr

/-- What a `Thing*` handed back by a lookup points to. -/
inductive Thing
  | creature (c : Creature)
  | item (i : Item)
  deriving DecidableEq, Repr

/-- The two lookups of `g_game()` that the environment calls; the game is not
among the sources and is taken as given. `none` is the null pointer. -/
structure Game where
  getCreatureByID : Nat → Option Creature
  getUniqueItem : Nat → Option Item

/-- A `DBResult_ptr`: a shared pointer, `none` when null, else the address of
the result it owns. -/
abbrev DBResult_ptr := Option Nat

/-- Modelled from the spec: the members of `ScriptEnvironment` that the
functions below use, declared in `script_environment.hpp`, which is not among
the sources: the map `localMap` from 32-bit uid to item, the map
`tempResults` from 32-bit id to result, and the 32-bit counter
`lastResultId`. A map is the function from a key to its value, `none` for a
key that is absent. -/
structure ScriptEnvironment where
  localMap : Nat → Option Item
  tempResults : Nat → Option DBResult_ptr
  lastResultId : Nat

/-- The function `ScriptEnvironment::insertItem`: the environment afterwards
and `result.second` of the `emplace`, false when the uid was already taken
(the case that is logged). -/
def ScriptEnvironment.insertItem (env : ScriptEnvironment) (uid : Nat) (item : Item) :
    ScriptEnvironment × Bool :=
  match env.localMap uid with
  | none => ({ env with localMap := Function.update env.localMap uid (some item) }, true)
  | some _ => (env, false)

/-- The function `ScriptEnvironment::getThingByUID`; `none` is `nullptr`. -/
def ScriptEnvironment.getThingByUID (env : ScriptEnvironment) (game : Game) (uid : Nat) :
    Option Thing :=
  if uid ≥ 0x10000000 then
    (game.getCreatureByID uid).map Thing.creature
  else if uid ≤ 65535 then
    match game.getUniqueItem (uid % 2 ^ 16) with
    | some item => if !item.removed then some (Thing.item item) else none
    | none => none
  else
    match env.localMap uid with
    | some item => if !item.removed then some (Thing.item item) else none
    | none => none

/-- The function `ScriptEnvironment::removeItemByUID`: the environment
afterwards and, when the call is passed on to `g_game().removeUniqueItem`, the
16-bit uid it is passed on with. -/
def ScriptEnvironment.removeItemByUID (env : ScriptEnvironment) (uid : Nat) :
    ScriptEnvironment × Option Nat :=
  if uid ≤ 65535 then
    (env, some (uid % 2 ^ 16))
  else
    ({ env with localMap := Function.update env.localMap uid none }, none)

/-- The function `ScriptEnvironment::addResult`: the environment afterwards
and the id returned. The pre-increment is on a `uint32_t`. -/
def ScriptEnvironment.addResult (env : ScriptEnvironment) (res : DBResult_ptr) :
    ScriptEnvironment × Nat :=
  let lastResultId := (env.lastResultId + 1) % 2 ^ 32
  ({ env with lastResultId := lastResultId,
              tempResults := Function.update env.tempResults lastResultId (some res) },
    lastResultId)

/-- The function `ScriptEnvironment::removeResult`. -/
def ScriptEnvironment.removeResult (env : ScriptEnvironment) (id : Nat) :
    ScriptEnvironment × Bool :=
  match env.tempResults id with
  | none => (env, false)
  | some _ => ({ env with tempResults := Function.update env.tempResults id none }, true)

/-- The function `ScriptEnvironment::getResultByID`. -/
def ScriptEnvironment.getResultByID (env : ScriptEnvironment) (id : Nat) : DBResult_ptr :=
  match env.tempResults id with
  | none => none
  | some res => res

/-- An environment after `resetEnv`, with the counter at `n`. -/
def ScriptEnvironment.reset (n : Nat) : ScriptEnvironment :=
  { localMap := fun _ => none, tempResults := fun _ => none, lastResultId := n }

/-! ## `TileItemVector` (`src/items/tile.h`) -/

/-- The class `TileItemVector`: the `std::vector<Item*>` it derives from and
the `uint32_t` member `downItemCount`. An element is a pointer, `none` when it
is null: the class exposes `push_back` and `insert` and puts no condition on
what is stored. An iterator is the index it points at. -/
structure TileItemVector where
  items : List (Option Item)
  downItemCount : Nat

/-- The element an iterator points at, `*it`. A read outside the vector,
which is undefined in C++, is given as null. -/
def TileItemVector.deref (v : TileItemVector) (it : Nat) : Option Item :=
  match v.items[it]? with
  | some p => p
  | none => none

/-- The member `size` of the vector, a `size_t`. -/
def TileItemVector.size (v : TileItemVector) : Nat :=
  v.items.length

/-- The function `getBeginDownItem`, which is `begin()`. -/
def TileItemVector.getBeginDownItem (_v : TileItemVector) : Nat :=
  0

/-- The function `getEndDownItem`, which is `begin() + downItemCount`. -/
def TileItemVector.getEndDownItem (v : TileItemVector) : Nat :=
  0 + v.downItemCount

/-- The function `getBeginTopItem`. -/
def TileItemVector.getBeginTopItem (v : TileItemVector) : Nat :=
  v.getEndDownItem

/-- The function `getEndTopItem`, which is `end()`. -/
def TileItemVector.getEndTopItem (v : TileItemVector) : Nat :=
  v.size

/-- The function `getTopItemCount`: `size() - downItemCount` is computed in
`size_t`, 64 bits wide, and returned as a `uint32_t`. -/
def TileItemVector.getTopItemCount (v : TileItemVector) : Nat :=
  ((v.size + 2 ^ 64 - v.downItemCount % 2 ^ 64) % 2 ^ 64) % 2 ^ 32

/-- The function `getDownItemCount`. -/
def TileItemVector.getDownItemCount (v : TileItemVector) : Nat :=
  v.downItemCount

/-- The function `getTopTopItem`; `none` is `nullptr`. -/
def TileItemVector.getTopTopItem (v : TileItemVector) : Option Item :=
  if v.getTopItemCount = 0 then none
  else v.deref (v.getEndTopItem - 1)

/-- The function `getTopDownItem`; `none` is `nullptr`. -/
def TileItemVector.getTopDownItem (v : TileItemVector) : Option Item :=
  if v.downItemCount = 0 then none
  else v.deref v.getBeginDownItem

/-- A vector of 2^32 items, all of them top items. -/
def TileItemVector.huge : TileItemVector :=
  { items := List.replicate (2 ^ 32) (some { addr := 0, removed := false }),
    downItemCount := 0 }

/-- A vector of three items, the first of which is a down item. -/
def TileItemVector.three : TileItemVector :=
  { items := [some { addr := 1, removed := false }, some { addr := 2, removed := false },
      some { addr := 3, removed := false }],
    downItemCount := 1 }

/-- A vector of two null pointers, the first of which is a down item. -/
def TileItemVector.nulls : TileItemVector :=
  { items := [none, none], downItemCount := 1 }

/-! ## `Tile`: flags and zone (`src/items/tile.h`) -/

/-- Modelled from the spec: hasBitSet, the helper that `Tile::hasFlag` calls,
declared in `utils/tools.h`, which is not among the sources: whether `flags`
has a bit of `flag`, that is `(flags & flag) != 0`. -/
def hasBitSet (flag flags : Nat) : Bool :=
  decide (flags &&& flag ≠ 0)

/-- The four values of the tile state flags that `getZone` tests. The
enumeration is declared outside the sources; its values are taken as given. -/
structure TileFlags_t where
  TILESTATE_PROTECTIONZONE : Nat
  TILESTATE_NOPVPZONE : Nat
  TILESTATE_NOLOGOUT : Nat
  TILESTATE_PVPZONE : Nat

/-- The values of `ZoneType_t` that `getZone` returns. -/
inductive ZoneType_t
  | ZONE_PROTECTION
  | ZONE_NOPVP
  | ZONE_NOLOGOUT
  | ZONE_PVP
  | ZONE_NORMAL
  deriving DecidableEq, Repr

/-- The class `Tile` as far as its flags go: the member `uint32_t flags`. -/
structure Tile where
  flags : Nat
  deriving DecidableEq, Repr

/-- The function `Tile::hasFlag`. -/
def Tile.hasFlag (t : Tile) (flag : Nat) : Bool :=
  hasBitSet flag t.flags

/-- The function `Tile::setFlag`: `flags |= flag`. -/
def Tile.setFlag (t : Tile) (flag : Nat) : Tile :=
  { flags := t.flags ||| flag }

/-- The function `Tile::resetFlag`: `flags &= ~flag`, where `~` is the
complement of a `uint32_t`. -/
def Tile.resetFlag (t : Tile) (flag : Nat) : Tile :=
  { flags := t.flags &&& (0xFFFFFFFF ^^^ flag) }

/-- The function `Tile::getZone`. -/
def Tile.getZone (t : Tile) (c : TileFlags_t) : ZoneType_t :=
  if t.hasFlag c.TILESTATE_PROTECTIONZONE then
    ZoneType_t.ZONE_PROTECTION
  else if t.hasFlag c.TILESTATE_NOPVPZONE then
    ZoneType_t.ZONE_NOPVP
  else if t.hasFlag c.TILESTATE_NOLOGOUT then
    ZoneType_t.ZONE_NOLOGOUT
  else if t.hasFlag c.TILESTATE_PVPZONE then
    ZoneType_t.ZONE_PVP
  else
    ZoneType_t.ZONE_NORMAL

/-- Four one-bit values for the tile state flags, for the instances below. -/
def TileFlags_t.sample : TileFlags_t :=
  { TILESTATE_PROTECTIONZONE := 4, TILESTATE_NOPVPZONE := 8, TILESTATE_NOLOGOUT := 16,
    TILESTATE_PVPZONE := 32 }

/-- A task as a producer creates it: no identity yet unless `i` is given,
expiring normally. -/
def mkTask (a i c : Nat) : SchedulerTask :=
  { addr := a, eventId := i, cycle := c, dontExpire := false }

/-! ## Theorems: `addEvent` -/

/-- C1: on a scheduler whose state is not RUNNING, `addEvent` returns 0,
leaves the whole scheduler as it was (heap, pending set and counter
included), requests no wake signal and keeps no task. -/
theorem addEvent_rejected (s : Scheduler) (task : SchedulerTask)
    (h : s.state ≠ ThreadState.THREAD_STATE_RUNNING) :
    (s.addEvent task).ret = 0 ∧
    (s.addEvent task).sched.eventList = s.eventList ∧
    (s.addEvent task).sched.eventIds = s.eventIds ∧
    (s.addEvent task).sched.lastEventId = s.lastEventId ∧
    (s.addEvent task).sched = s ∧
    (s.addEvent task).do_signal = false ∧
    (s.addEvent task).task = none := by
  simp [Scheduler.addEvent, h]

/-- Scenario D of the spec as an instance of C1: an `addEvent` after
`shutdown` on a scheduler holding one task. -/
theorem addEvent_rejected_witness :
    ((Scheduler.init.addEvent (mkTask 1 0 100)).sched.shutdown.1.addEvent (mkTask 2 0 50)).ret = 0 ∧
    ((Scheduler.init.addEvent (mkTask 1 0 100)).sched.shutdown.1.addEvent (mkTask 2 0 50)).sched.eventList = [] :=
  have h := addEvent_rejected (Scheduler.init.addEvent (mkTask 1 0 100)).sched.shutdown.1
    (mkTask 2 0 50) (by decide)
  ⟨h.1, h.2.1.trans (by decide)⟩

theorem nextEventId_ne_zero (n : Nat) : nextEventId n ≠ 0 := by
  unfold nextEventId
  split
  · decide
  · assumption

/-- C2: on a RUNNING scheduler `addEvent` returns the final identity of the
task, which is not 0: the identity supplied when that is not 0, the one newly
allocated otherwise. Afterwards the identity is in the pending set and the
task, carrying it, is an entry of the heap, which holds the former entries
and this one. -/
theorem addEvent_accepted (s : Scheduler) (task : SchedulerTask)
    (h : s.state = ThreadState.THREAD_STATE_RUNNING) :
    (s.addEvent task).ret ≠ 0 ∧
    (task.eventId ≠ 0 → (s.addEvent task).ret = task.eventId) ∧
    (task.eventId = 0 → (s.addEvent task).ret = (s.addEvent task).sched.lastEventId) ∧
    (s.addEvent task).ret ∈ (s.addEvent task).sched.eventIds ∧
    (s.addEvent task).task = some (task.setEventId (s.addEvent task).ret) ∧
    task.setEventId (s.addEvent task).ret ∈ (s.addEvent task).sched.eventList ∧
    (s.addEvent task).sched.eventList.Perm (task.setEventId (s.addEvent task).ret :: s.eventList) ∧
    (s.addEvent task).sched.eventList.length = s.eventList.length + 1 := by
  by_cases h0 : task.eventId = 0
  · simp [Scheduler.addEvent, h, h0, PriorityQueue.push, SchedulerTask.setEventId,
      nextEventId_ne_zero, List.perm_append_singleton]
  · have hs : task.setEventId task.eventId = task := rfl
    simp [Scheduler.addEvent, h, h0, PriorityQueue.push, hs, List.perm_append_singleton]

/-- An instance of C2: a task without identity on the fresh scheduler. -/
theorem addEvent_accepted_witness :
    (Scheduler.init.addEvent (mkTask 1 0 100)).ret ≠ 0 ∧
    (Scheduler.init.addEvent (mkTask 1 0 100)).ret ∈
      (Scheduler.init.addEvent (mkTask 1 0 100)).sched.eventIds :=
  have h := addEvent_accepted Scheduler.init (mkTask 1 0 100) rfl
  ⟨h.1, h.2.2.2.1⟩

/-- C3: identity allocation on a RUNNING scheduler. For a task that comes with
identity 0 the counter becomes `(lastEventId + 1) mod 2^32`, or 1 when that is
0, and the task gets exactly the new counter value, which is never 0; from
counter `0xFFFFFFFF` the identity is 1. For a task with an identity of its own
the counter stays as it was. -/
theorem addEvent_allocation (s : Scheduler) (task : SchedulerTask)
    (h : s.state = ThreadState.THREAD_STATE_RUNNING) :
    (task.eventId = 0 →
      (s.addEvent task).sched.lastEventId =
        (if (s.lastEventId + 1) % 2 ^ 32 = 0 then 1 else (s.lastEventId + 1) % 2 ^ 32) ∧
      (s.addEvent task).task = some (task.setEventId (s.addEvent task).sched.lastEventId) ∧
      (s.addEvent task).ret = (s.addEvent task).sched.lastEventId ∧
      (s.addEvent task).ret ≠ 0 ∧
      (s.lastEventId = 0xFFFFFFFF → (s.addEvent task).ret = 1)) ∧
    (task.eventId ≠ 0 → (s.addEvent task).sched.lastEventId = s.lastEventId) := by
  constructor
  · intro h0
    have hne := nextEventId_ne_zero s.lastEventId
    simp only [nextEventId] at hne
    refine ⟨?_, ?_, ?_, ?_, ?_⟩
    · simp [Scheduler.addEvent, h, h0, nextEventId]
    · simp [Scheduler.addEvent, h, h0, SchedulerTask.setEventId]
    · simp [Scheduler.addEvent, h, h0, SchedulerTask.setEventId]
    · simpa [Scheduler.addEvent, h, h0, SchedulerTask.setEventId, nextEventId] using hne
    · intro hmax
      simp [Scheduler.addEvent, h, h0, SchedulerTask.setEventId, nextEventId, hmax]
  · intro h0
    simp [Scheduler.addEvent, h, h0]

/-- An instance of C3: the wrap of the counter from `0xFFFFFFFF` to 1. -/
theorem addEvent_allocation_witness :
    (({ Scheduler.init with lastEventId := 0xFFFFFFFF } : Scheduler).addEvent (mkTask 1 0 100)).ret = 1 :=
  ((addEvent_allocation { Scheduler.init with lastEventId := 0xFFFFFFFF } (mkTask 1 0 100) rfl).1
    rfl).2.2.2.2 rfl

/-! ## Theorems: `stopEvent` -/

/-- C4: `stopEvent id` returns true exactly when `id` is not 0 and is in the
pending set. After a call that returned true, `id` is out of the pending set,
every other identity is in it exactly when it was before, and a second
`stopEvent id` returns false. -/
theorem stopEvent_result (s : Scheduler) (id : Nat) :
    ((s.stopEvent id).2 = true ↔ id ≠ 0 ∧ id ∈ s.eventIds) ∧
    ((s.stopEvent id).2 = true →
      id ∉ (s.stopEvent id).1.eventIds ∧
      (∀ j, j ≠ id → (j ∈ (s.stopEvent id).1.eventIds ↔ j ∈ s.eventIds)) ∧
      ((s.stopEvent id).1.stopEvent id).2 = false) := by
  unfold Scheduler.stopEvent
  by_cases h0 : id = 0
  · simp [h0]
  · by_cases hm : id ∈ s.eventIds
    · simp only [h0, hm, not_true_eq_false, if_false, ne_eq, not_false_eq_true, and_self,
        true_iff, forall_true_left, true_and]
      refine ⟨?_, ?_, ?_⟩
      · simp
      · intro j hj
        simp [Finset.mem_erase, hj]
      · simp
    · simp [h0, hm]

/-- Scenario B of the spec as an instance of C4: the identity of a task just
scheduled is cancelled once, and only once. -/
theorem stopEvent_result_witness :
    ((Scheduler.init.addEvent (mkTask 1 0 100)).sched.stopEvent 1).2 = true ∧
    (((Scheduler.init.addEvent (mkTask 1 0 100)).sched.stopEvent 1).1.stopEvent 1).2 = false :=
  have h := stopEvent_result (Scheduler.init.addEvent (mkTask 1 0 100)).sched 1
  have ht : ((Scheduler.init.addEvent (mkTask 1 0 100)).sched.stopEvent 1).2 = true :=
    h.1.2 (by decide)
  ⟨ht, (h.2 ht).2.2⟩

/-- C5: `stopEvent` never touches the heap: the heap, the counter and the
lifecycle state are what they were, also when the cancellation succeeds (the
entry of the cancelled task stays), and the whole scheduler is unchanged when
the call returns false. -/
theorem stopEvent_frame (s : Scheduler) (id : Nat) :
    (s.stopEvent id).1.eventList = s.eventList ∧
    (s.stopEvent id).1.lastEventId = s.lastEventId ∧
    (s.stopEvent id).1.state = s.state ∧
    ((s.stopEvent id).2 = false → (s.stopEvent id).1 = s) := by
  unfold Scheduler.stopEvent
  by_cases h0 : id = 0
  · simp [h0]
  · by_cases hm : id ∈ s.eventIds
    · simp [h0, hm]
    · simp [h0, hm]

/-- An instance of C5: after a successful cancellation the task is still in
the heap, and an unknown identity changes nothing. -/
theorem stopEvent_frame_witness :
    ((Scheduler.init.addEvent (mkTask 1 0 100)).sched.stopEvent 1).1.eventList =
      [mkTask 1 1 100] ∧
    ((Scheduler.init.addEvent (mkTask 1 0 100)).sched.stopEvent 7).1 =
      (Scheduler.init.addEvent (mkTask 1 0 100)).sched :=
  ⟨(stopEvent_frame (Scheduler.init.addEvent (mkTask 1 0 100)).sched 1).1.trans (by decide),
   (stopEvent_frame (Scheduler.init.addEvent (mkTask 1 0 100)).sched 7).2.2.2 (by decide)⟩

/-! ## The priority queue meets the contract of `std::priority_queue` -/

theorem top_eq_none_iff (q : List SchedulerTask) : PriorityQueue.top q = none ↔ q = [] := by
  cases q with
  | nil => simp [PriorityQueue.top]
  | cons t ts =>
    simp only [PriorityQueue.top, reduceCtorEq, iff_false]
    cases PriorityQueue.top ts with
    | none => simp
    | some u => by_cases hc : TaskComparator t u = true <;> simp [hc]

theorem top_mem {q : List SchedulerTask} {t : SchedulerTask}
    (h : PriorityQueue.top q = some t) : t ∈ q := by
  induction q generalizing t with
  | nil => simp [PriorityQueue.top] at h
  | cons a ts ih =>
    simp only [PriorityQueue.top] at h
    cases hts : PriorityQueue.top ts with
    | none =>
      rw [hts] at h
      simp only [Option.some.injEq] at h
      simp [h]
    | some u =>
      rw [hts] at h
      by_cases hc : TaskComparator a u = true
      · simp only [hc, if_true, Option.some.injEq] at h
        subst h
        exact List.mem_cons_of_mem _ (ih hts)
      · simp only [hc, Bool.false_eq_true, if_false, Option.some.injEq] at h
        simp [← h]

theorem top_le {q : List SchedulerTask} {t : SchedulerTask}
    (h : PriorityQueue.top q = some t) : ∀ u ∈ q, t.cycle ≤ u.cycle := by
  induction q generalizing t with
  | nil => simp
  | cons a ts ih =>
    simp only [PriorityQueue.top] at h
    cases hts : PriorityQueue.top ts with
    | none =>
      rw [hts] at h
      simp only [Option.some.injEq] at h
      have hnil : ts = [] := (top_eq_none_iff ts).1 hts
      subst hnil
      subst h
      simp
    | some m =>
      rw [hts] at h
      have hm := ih hts
      by_cases hc : TaskComparator a m = true
      · simp only [hc, if_true, Option.some.injEq] at h
        subst h
        have hlt : m.cycle < a.cycle := by simpa [TaskComparator] using hc
        intro u hu
        rcases List.mem_cons.1 hu with rfl | hu
        · exact Nat.le_of_lt hlt
        · exact hm u hu
      · simp only [hc, Bool.false_eq_true, if_false, Option.some.injEq] at h
        subst h
        have hle : a.cycle ≤ m.cycle := by simpa [TaskComparator] using hc
        intro u hu
        rcases List.mem_cons.1 hu with rfl | hu
        · exact Nat.le_refl _
        · exact Nat.le_trans hle (hm u hu)

theorem pop_perm {q : List SchedulerTask} {t : SchedulerTask}
    (h : PriorityQueue.top q = some t) : q.Perm (t :: PriorityQueue.pop q) := by
  induction q generalizing t with
  | nil => simp [PriorityQueue.top] at h
  | cons a ts ih =>
    simp only [PriorityQueue.top] at h
    simp only [PriorityQueue.pop]
    cases hts : PriorityQueue.top ts with
    | none =>
      rw [hts] at h
      simp only [Option.some.injEq] at h
      have hnil : ts = [] := (top_eq_none_iff ts).1 hts
      subst hnil
      subst h
      simp
    | some m =>
      rw [hts] at h
      by_cases hc : TaskComparator a m = true
      · simp only [hc, if_true, Option.some.injEq] at h
        subst h
        simp only [hc, if_true]
        exact ((ih hts).cons a).trans (List.Perm.swap _ _ _)
      · simp only [hc, Bool.false_eq_true, if_false, Option.some.injEq] at h
        subst h
        simp [hc]

theorem length_pop {q : List SchedulerTask} {t : SchedulerTask}
    (h : PriorityQueue.top q = some t) : (PriorityQueue.pop q).length + 1 = q.length := by
  simpa using (pop_perm h).length_eq.symm

theorem empty_iff (q : List SchedulerTask) : PriorityQueue.empty q = true ↔ q = [] := by
  simp [PriorityQueue.empty]

/-! ## `shutdown` -/

theorem drain_spec (fuel : Nat) (q : List SchedulerTask) (h : q.length ≤ fuel) :
    (drain fuel q).1 = [] ∧ (drain fuel q).2.Perm q := by
  induction fuel generalizing q with
  | zero =>
    have hq : q = [] := List.length_eq_zero.1 (Nat.le_zero.1 h)
    subst hq
    simp [drain]
  | succ n ih =>
    cases htop : PriorityQueue.top q with
    | none =>
      have hq : q = [] := (top_eq_none_iff q).1 htop
      subst hq
      simp [drain, PriorityQueue.empty]
    | some t =>
      have hne : q ≠ [] := fun hq => by simp [hq, PriorityQueue.top] at htop
      have hlen := length_pop htop
      have hrec := ih (PriorityQueue.pop q) (by omega)
      have hemp : PriorityQueue.empty q = false := by
        cases q with
        | nil => exact absurd rfl hne
        | cons a l => rfl
      simp only [drain, hemp, htop, Bool.false_eq_true, if_false]
      exact ⟨hrec.1, ((hrec.2.cons t).trans (pop_perm htop).symm)⟩

theorem shutdown_drained (s : Scheduler) : s.shutdown.1.Drained := by
  refine ⟨rfl, ?_, rfl⟩
  exact (drain_spec s.eventList.length s.eventList (Nat.le_refl _)).1

theorem step_drained {s : Scheduler} (h : s.Drained) (op : Op) :
    (step s op).1 = s ∧ dispatchedTasks [(step s op).2] = [] := by
  obtain ⟨hst, hl, hi⟩ := h
  cases op with
  | addEvent task => simp [step, Scheduler.addEvent, hst, dispatchedTasks]
  | stopEvent id =>
    constructor
    · simp only [step]
      by_cases h0 : id = 0 <;> simp [Scheduler.stopEvent, h0, hi]
    · simp [step, dispatchedTasks]
  | threadMain ret =>
    simp [step, Scheduler.threadMain, hl, PriorityQueue.empty, dispatchedTasks]
  | shutdown =>
    constructor
    · cases s
      simp only at hst hl hi
      simp [step, Scheduler.shutdown, hst, hl, hi, drain]
    · simp [step, dispatchedTasks]

theorem dispatchedTasks_cons (e : Event) (es : List Event) :
    dispatchedTasks (e :: es) = dispatchedTasks [e] ++ dispatchedTasks es := by
  cases e <;> simp [dispatchedTasks]

theorem run_drained {s : Scheduler} (h : s.Drained) (ops : List Op) :
    (run s ops).1 = s ∧ dispatchedTasks (run s ops).2 = [] := by
  induction ops with
  | nil => simp [run, dispatchedTasks]
  | cons op ops ih =>
    have hs := step_drained h op
    simp only [run]
    rw [dispatchedTasks_cons, hs.1, hs.2]
    simpa using ih

/-- C10: shutdown drains completely. After `shutdown` the state is TERMINATED,
the heap and the pending set are empty, the tasks that were in the heap are
exactly the ones deleted and `shutdown` itself dispatches none of them; and at
every point of every continuation the scheduler is still that drained
scheduler, nothing has been dispatched, every `addEvent` returns 0, every
`stopEvent` returns false and no pass of the waiting loop dispatches. -/
theorem shutdown_drains (s : Scheduler) :
    s.shutdown.1.state = ThreadState.THREAD_STATE_TERMINATED ∧
    s.shutdown.1.eventList = [] ∧
    s.shutdown.1.eventIds = ∅ ∧
    s.shutdown.2.Perm s.eventList ∧
    dispatchedTasks [(step s Op.shutdown).2] = [] ∧
    ∀ ops : List Op,
      (run s.shutdown.1 ops).1 = s.shutdown.1 ∧
      dispatchedTasks (run s.shutdown.1 ops).2 = [] ∧
      (∀ task, ((run s.shutdown.1 ops).1.addEvent task).ret = 0) ∧
      (∀ id, ((run s.shutdown.1 ops).1.stopEvent id).2 = false) ∧
      (∀ ret, ((run s.shutdown.1 ops).1.threadMain ret).dispatched = none) := by
  have hd := shutdown_drained s
  refine ⟨hd.1, hd.2.1, hd.2.2, ?_, ?_, ?_⟩
  · exact (drain_spec s.eventList.length s.eventList (Nat.le_refl _)).2
  · simp [step, dispatchedTasks]
  · intro ops
    have hr := run_drained hd ops
    rw [hr.1]
    refine ⟨rfl, hr.2, ?_, ?_, ?_⟩
    · intro task
      simp [Scheduler.addEvent, hd.1]
    · intro id
      by_cases h0 : id = 0 <;> simp [Scheduler.stopEvent, h0, hd.2.2]
    · intro ret
      simp [Scheduler.threadMain, hd.2.1, PriorityQueue.empty]

/-! ## Cancellation and the identities in the pending set -/

/-- The three outcomes of a pass of the waiting loop: nothing happens, the top
entry is dropped because its identity is not pending, or it is dispatched. -/
theorem threadMain_cases (s : Scheduler) (ret : cv_status) :
    s.threadMain ret = { sched := s, dispatched := none, deleted := none } ∨
    (∃ t, PriorityQueue.top s.eventList = some t ∧ t.eventId ∉ s.eventIds ∧
      s.threadMain ret =
        { sched := { s with eventList := PriorityQueue.pop s.eventList },
          dispatched := none, deleted := some t }) ∨
    (∃ t, PriorityQueue.top s.eventList = some t ∧ t.eventId ∈ s.eventIds ∧
      s.threadMain ret =
        { sched := { s with eventList := PriorityQueue.pop s.eventList,
                            eventIds := s.eventIds.erase t.eventId },
          dispatched := some (t.setDontExpire, true), deleted := none }) := by
  unfold Scheduler.threadMain
  split
  · cases htop : PriorityQueue.top s.eventList with
    | none => exact Or.inl rfl
    | some t =>
      by_cases hm : t.eventId ∈ s.eventIds
      · exact Or.inr (Or.inr ⟨t, rfl, hm, by simp [hm]⟩)
      · exact Or.inr (Or.inl ⟨t, rfl, hm, by simp [hm]⟩)
  · exact Or.inl rfl

theorem step_absent {s : Scheduler} {id : Nat} (op : Op) (h : id ∉ s.eventIds)
    (hadd : ∀ sig, (step s op).2 ≠ Event.added id sig) :
    id ∉ (step s op).1.eventIds ∧ ∀ d ∈ dispatchedTasks [(step s op).2], d.eventId ≠ id := by
  cases op with
  | addEvent task =>
    refine ⟨?_, by simp [step, dispatchedTasks]⟩
    by_cases hst : s.state = ThreadState.THREAD_STATE_RUNNING
    · have hne : (s.addEvent task).ret ≠ id := fun he =>
        hadd (s.addEvent task).do_signal (by simp [step, he])
      simp only [Scheduler.addEvent, hst, if_true] at hne
      simp only [step, Scheduler.addEvent, hst, if_true, Finset.mem_insert, not_or]
      exact ⟨fun he => hne he.symm, h⟩
    · simpa [step, Scheduler.addEvent, hst] using h
  | stopEvent e =>
    refine ⟨?_, by simp [step, dispatchedTasks]⟩
    simp only [step, Scheduler.stopEvent]
    by_cases h0 : e = 0
    · simpa [h0] using h
    · by_cases hm : e ∈ s.eventIds
      · simp [h0, hm, Finset.mem_erase, h]
      · simpa [h0, hm] using h
  | threadMain ret =>
    rcases threadMain_cases s ret with hr | ⟨t, _, hm, hr⟩ | ⟨t, _, hm, hr⟩
    · simpa [step, hr, dispatchedTasks] using h
    · simpa [step, hr, dispatchedTasks] using h
    · simp only [step, hr, Finset.mem_erase, not_and, dispatchedTasks, List.mem_singleton,
        forall_eq, SchedulerTask.setDontExpire]
      exact ⟨fun _ hin => h hin, fun he => h (he ▸ hm)⟩
  | shutdown => simp [step, Scheduler.shutdown, dispatchedTasks]

theorem run_absent {id : Nat} (ops : List Op) (s : Scheduler) (h : id ∉ s.eventIds)
    (hadd : ∀ sig, Event.added id sig ∉ (run s ops).2) :
    ∀ d ∈ dispatchedTasks (run s ops).2, d.eventId ≠ id := by
  induction ops generalizing s with
  | nil => simp [run, dispatchedTasks]
  | cons op ops ih =>
    simp only [run, List.mem_cons, not_or] at hadd
    have hs := step_absent op h (fun sig he => (hadd sig).1 he.symm)
    have hrest := ih (step s op).1 hs.1 (fun sig => (hadd sig).2)
    simp only [run]
    rw [dispatchedTasks_cons]
    intro d hd
    rcases List.mem_append.1 hd with hd | hd
    · exact hs.2 d hd
    · exact hrest d hd

/-- C6, as stated, fails: the task at address 1 is scheduled under identity 5
and cancelled (`stopEvent 5` returns true while it is in the heap); a second
task is then scheduled under the same identity, and the next timeout pass of
the loop pops the first task, finds 5 in the pending set and dispatches it. -/
theorem cancelled_task_dispatched :
    mkTask 1 5 10 ∈ (run Scheduler.init [Op.addEvent (mkTask 1 5 10)]).1.eventList ∧
    ((run Scheduler.init [Op.addEvent (mkTask 1 5 10)]).1.stopEvent 5).2 = true ∧
    (mkTask 1 5 10).setDontExpire ∈ dispatchedTasks
      (run ((run Scheduler.init [Op.addEvent (mkTask 1 5 10)]).1.stopEvent 5).1
        [Op.addEvent (mkTask 2 5 20), Op.threadMain cv_status.timeout]).2 := by
  decide

/-- C6, amended: if `stopEvent id` returns true while the task `t` scheduled
under `id` is in the heap, and no later `addEvent` returns the identity `id`,
then no later step hands `t`, or any task of identity `id`, to the
dispatcher. -/
theorem cancelled_never_dispatched (s : Scheduler) (id : Nat) (t : SchedulerTask)
    (ops : List Op) (_ht : t ∈ s.eventList) (hid : t.eventId = id)
    (hstop : (s.stopEvent id).2 = true)
    (hadd : ∀ sig, Event.added id sig ∉ (run (s.stopEvent id).1 ops).2) :
    t.setDontExpire ∉ dispatchedTasks (run (s.stopEvent id).1 ops).2 ∧
    ∀ d ∈ dispatchedTasks (run (s.stopEvent id).1 ops).2, d.eventId ≠ id := by
  have habs : id ∉ (s.stopEvent id).1.eventIds := by
    by_cases h0 : id = 0
    · simp [Scheduler.stopEvent, h0] at hstop
    · by_cases hm : id ∈ s.eventIds
      · simp [Scheduler.stopEvent, h0, hm]
      · simp [Scheduler.stopEvent, h0, hm] at hstop
  have hall := run_absent ops (s.stopEvent id).1 habs hadd
  exact ⟨fun hmem => hall _ hmem hid, hall⟩

/-- An instance of amended C6 (Scenario B of the spec): a task is cancelled,
another one is scheduled by the scheduler under the next identity, and two
timeout passes dispatch only the second. -/
theorem cancelled_never_dispatched_witness :
    (mkTask 1 1 100).setDontExpire ∉ dispatchedTasks
      (run ((Scheduler.init.addEvent (mkTask 1 0 100)).sched.stopEvent 1).1
        [Op.addEvent (mkTask 2 0 50), Op.threadMain cv_status.timeout,
         Op.threadMain cv_status.timeout]).2 :=
  (cancelled_never_dispatched (Scheduler.init.addEvent (mkTask 1 0 100)).sched 1 (mkTask 1 1 100)
    [Op.addEvent (mkTask 2 0 50), Op.threadMain cv_status.timeout,
     Op.threadMain cv_status.timeout] (by decide) rfl (by decide) (by decide)).1

/-! ## Conservation of tasks

Whatever is dispatched or still in the heap after a run was in the heap
before it or was put there by an `addEvent` of the run. The statement is made
for any key of a task that `setDontExpire` leaves alone. -/

section Conservation

variable {β : Type} (f : SchedulerTask → β)

theorem step_conserve (hf : ∀ t, f t.setDontExpire = f t) (s : Scheduler) (op : Op) :
    (((dispatchedTasks [(step s op).2]).map f : List β) : Multiset β) +
        (((step s op).1.eventList.map f : List β) : Multiset β) ≤
      ((s.eventList.map f : List β) : Multiset β) + (((storedBy s op).map f : List β) : Multiset β) := by
  cases op with
  | addEvent task =>
    by_cases hst : s.state = ThreadState.THREAD_STATE_RUNNING
    · simp only [step, storedBy, Scheduler.addEvent, hst, if_true, dispatchedTasks,
        PriorityQueue.push, Option.toList, List.map_nil, Multiset.coe_nil, zero_add,
        List.map_append, Multiset.coe_add]
      exact le_refl _
    · simp [step, storedBy, Scheduler.addEvent, hst, dispatchedTasks]
  | stopEvent e =>
    have hl : (s.stopEvent e).1.eventList = s.eventList := by
      unfold Scheduler.stopEvent
      split
      · rfl
      · split <;> rfl
    simp [step, storedBy, dispatchedTasks, hl]
  | threadMain ret =>
    rcases threadMain_cases s ret with hr | ⟨t, htop, _, hr⟩ | ⟨t, htop, _, hr⟩
    · simp [step, storedBy, hr, dispatchedTasks]
    · have hp := (pop_perm htop).map f
      simp only [step, storedBy, hr, dispatchedTasks, List.map_nil, Multiset.coe_nil, zero_add,
        add_zero, Multiset.coe_le]
      exact (List.sublist_cons_self _ _).subperm.trans hp.symm.subperm
    · have hp := (pop_perm htop).map f
      simp only [step, storedBy, hr, dispatchedTasks, List.map_cons, List.map_nil, hf,
        Multiset.coe_nil, add_zero, Multiset.coe_add, Multiset.coe_le, List.singleton_append]
      exact hp.symm.subperm
  | shutdown =>
    have hl : s.shutdown.1.eventList = [] := (shutdown_drained s).2.1
    simp [step, storedBy, dispatchedTasks, hl]

theorem run_conserve (hf : ∀ t, f t.setDontExpire = f t) (ops : List Op) (s : Scheduler) :
    (((dispatchedTasks (run s ops).2).map f : List β) : Multiset β) +
        (((run s ops).1.eventList.map f : List β) : Multiset β) ≤
      ((s.eventList.map f : List β) : Multiset β) +
        (((storedTasks s ops).map f : List β) : Multiset β) := by
  induction ops generalizing s with
  | nil => simp [run, dispatchedTasks, storedTasks]
  | cons op ops ih =>
    have h1 := step_conserve f hf s op
    have h2 := ih (step s op).1
    simp only [run, storedTasks]
    rw [dispatchedTasks_cons]
    simp only [List.map_append, ← Multiset.coe_add]
    calc (((dispatchedTasks [(step s op).2]).map f : List β) : Multiset β) +
            (((dispatchedTasks (run (step s op).1 ops).2).map f : List β) : Multiset β) +
            (((run (step s op).1 ops).1.eventList.map f : List β) : Multiset β)
        = (((dispatchedTasks [(step s op).2]).map f : List β) : Multiset β) +
            ((((dispatchedTasks (run (step s op).1 ops).2).map f : List β) : Multiset β) +
            (((run (step s op).1 ops).1.eventList.map f : List β) : Multiset β)) := by
          rw [add_assoc]
      _ ≤ (((dispatchedTasks [(step s op).2]).map f : List β) : Multiset β) +
            ((((step s op).1.eventList.map f : List β) : Multiset β) +
            (((storedTasks (step s op).1 ops).map f : List β) : Multiset β)) :=
          add_le_add_left h2 _
      _ = ((((dispatchedTasks [(step s op).2]).map f : List β) : Multiset β) +
            (((step s op).1.eventList.map f : List β) : Multiset β)) +
            (((storedTasks (step s op).1 ops).map f : List β) : Multiset β) := by
          rw [add_assoc]
      _ ≤ (((s.eventList.map f : List β) : Multiset β) +
            (((storedBy s op).map f : List β) : Multiset β)) +
            (((storedTasks (step s op).1 ops).map f : List β) : Multiset β) :=
          add_le_add_right h1 _
      _ = ((s.eventList.map f : List β) : Multiset β) +
            ((((storedBy s op).map f : List β) : Multiset β) +
            (((storedTasks (step s op).1 ops).map f : List β) : Multiset β)) := by
          rw [add_assoc]

/-- From the empty heap: if the keys of the tasks stored by a run are pairwise
distinct, so are the keys of the tasks dispatched and the keys in the heap. -/
theorem run_nodup (hf : ∀ t, f t.setDontExpire = f t) (ops : List Op) (s : Scheduler)
    (hs : s.eventList = []) (hn : ((storedTasks s ops).map f).Nodup) :
    ((dispatchedTasks (run s ops).2).map f).Nodup ∧ ((run s ops).1.eventList.map f).Nodup := by
  have h := run_conserve f hf ops s
  simp only [hs, List.map_nil, Multiset.coe_nil, zero_add] at h
  have hall : ((((dispatchedTasks (run s ops).2).map f : List β) : Multiset β) +
      (((run s ops).1.eventList.map f : List β) : Multiset β)).Nodup :=
    Multiset.nodup_of_le h (Multiset.coe_nodup.2 hn)
  exact ⟨Multiset.coe_nodup.1 (Multiset.nodup_of_le (Multiset.le_add_right _ _) hall),
    Multiset.coe_nodup.1 (Multiset.nodup_of_le (Multiset.le_add_left _ _) hall)⟩

end Conservation

/-! ## Task objects and identities along an execution -/

theorem storedBy_addr (s : Scheduler) (op : Op) :
    ((storedBy s op).map SchedulerTask.addr).Sublist ((tasksOf [op]).map SchedulerTask.addr) := by
  cases op with
  | addEvent task =>
    by_cases hst : s.state = ThreadState.THREAD_STATE_RUNNING
    · by_cases h0 : task.eventId = 0 <;>
        simp [storedBy, tasksOf, Scheduler.addEvent, hst, h0, SchedulerTask.setEventId]
    · simp [storedBy, tasksOf, Scheduler.addEvent, hst]
  | stopEvent e => simp [storedBy, tasksOf]
  | threadMain ret => simp [storedBy, tasksOf]
  | shutdown => simp [storedBy, tasksOf]

theorem tasksOf_cons (op : Op) (ops : List Op) :
    tasksOf (op :: ops) = tasksOf [op] ++ tasksOf ops := by
  cases op <;> simp [tasksOf]

theorem storedTasks_addr (ops : List Op) (s : Scheduler) :
    ((storedTasks s ops).map SchedulerTask.addr).Sublist
      ((tasksOf ops).map SchedulerTask.addr) := by
  induction ops generalizing s with
  | nil => simp [storedTasks, tasksOf]
  | cons op ops ih =>
    rw [tasksOf_cons]
    simp only [storedTasks, List.map_append]
    exact (storedBy_addr s op).append (ih _)

/-- Identities given out by the scheduler alone: when every task comes with
identity 0 and the counter has room for all of them, the identities of the
tasks stored by a run increase strictly, from above the counter. -/
theorem storedTasks_eventId (ops : List Op) (s : Scheduler)
    (h0 : ∀ t ∈ tasksOf ops, t.eventId = 0)
    (hroom : s.lastEventId + (tasksOf ops).length < 2 ^ 32) :
    ((storedTasks s ops).map SchedulerTask.eventId).Pairwise (· < ·) ∧
    ∀ i ∈ (storedTasks s ops).map SchedulerTask.eventId, s.lastEventId < i := by
  induction ops generalizing s with
  | nil => simp [storedTasks]
  | cons op ops ih =>
    rw [tasksOf_cons] at h0 hroom
    have h0rest : ∀ t ∈ tasksOf ops, t.eventId = 0 :=
      fun t ht => h0 t (List.mem_append_right _ ht)
    cases op with
    | addEvent task =>
      have ht0 : task.eventId = 0 := h0 task (by simp [tasksOf])
      simp only [tasksOf, List.length_append, List.length_singleton] at hroom
      by_cases hst : s.state = ThreadState.THREAD_STATE_RUNNING
      · have hnext : nextEventId s.lastEventId = s.lastEventId + 1 := by
          unfold nextEventId
          rw [Nat.mod_eq_of_lt (by omega)]
          simp
        have hlast : (step s (Op.addEvent task)).1.lastEventId = s.lastEventId + 1 := by
          simp [step, Scheduler.addEvent, hst, ht0, hnext]
        have hst1 : storedBy s (Op.addEvent task) = [task.setEventId (s.lastEventId + 1)] := by
          simp [storedBy, Scheduler.addEvent, hst, ht0, hnext]
        have hrec := ih (step s (Op.addEvent task)).1 h0rest (by rw [hlast]; omega)
        rw [hlast] at hrec
        simp only [storedTasks, hst1, List.singleton_append, List.map_cons, List.pairwise_cons,
          List.mem_cons, forall_eq_or_imp, SchedulerTask.setEventId]
        refine ⟨⟨hrec.2, hrec.1⟩, Nat.lt_succ_self _, ?_⟩
        intro i hi
        exact Nat.lt_trans (Nat.lt_succ_self _) (hrec.2 i hi)
      · have hsame : (step s (Op.addEvent task)).1 = s := by
          simp [step, Scheduler.addEvent, hst]
        have hst1 : storedBy s (Op.addEvent task) = [] := by
          simp [storedBy, Scheduler.addEvent, hst]
        have hrec := ih s h0rest (by omega)
        simpa [storedTasks, hst1, hsame] using hrec
    | stopEvent e =>
      have hlast : (step s (Op.stopEvent e)).1.lastEventId = s.lastEventId := by
        simp only [step, Scheduler.stopEvent]
        split
        · rfl
        · split <;> rfl
      have hrec := ih (step s (Op.stopEvent e)).1 h0rest (by
        rw [hlast]; simpa [tasksOf] using hroom)
      rw [hlast] at hrec
      simpa [storedTasks, storedBy] using hrec
    | threadMain ret =>
      have hlast : (step s (Op.threadMain ret)).1.lastEventId = s.lastEventId := by
        rcases threadMain_cases s ret with hr | ⟨t, _, _, hr⟩ | ⟨t, _, _, hr⟩ <;>
          simp [step, hr]
      have hrec := ih (step s (Op.threadMain ret)).1 h0rest (by
        rw [hlast]; simpa [tasksOf] using hroom)
      rw [hlast] at hrec
      simpa [storedTasks, storedBy] using hrec
    | shutdown =>
      have hlast : (step s Op.shutdown).1.lastEventId = s.lastEventId := rfl
      have hrec := ih (step s Op.shutdown).1 h0rest (by
        rw [hlast]; simpa [tasksOf] using hroom)
      rw [hlast] at hrec
      simpa [storedTasks, storedBy] using hrec

theorem storedTasks_eventId_nodup (ops : List Op)
    (h0 : ∀ t ∈ tasksOf ops, t.eventId = 0) (hroom : (tasksOf ops).length < 2 ^ 32) :
    ((storedTasks Scheduler.init ops).map SchedulerTask.eventId).Nodup := by
  have h := (storedTasks_eventId ops Scheduler.init h0 (by simpa [Scheduler.init] using hroom)).1
  exact h.imp (fun hlt => Nat.ne_of_lt hlt)

/-- C7, as stated, fails: identity 5 is submitted to the dispatcher twice. A
task is scheduled under identity 5 and dispatched; then a second task is
scheduled under identity 5 and dispatched as well. -/
theorem identity_dispatched_twice :
    (dispatchedTasks (run Scheduler.init
      [Op.addEvent (mkTask 1 5 10), Op.threadMain cv_status.timeout,
       Op.addEvent (mkTask 2 5 20), Op.threadMain cv_status.timeout]).2).map
        SchedulerTask.eventId = [5, 5] := by
  decide

/-- C7, amended: in every execution from the empty RUNNING scheduler in which
each task object is handed to `addEvent` at most once, no single task is
submitted to the dispatcher more than once; and when moreover every task comes
with identity 0 and fewer than 2^32 tasks are handed to `addEvent`, no
identity is submitted more than once. -/
theorem dispatch_at_most_once (ops : List Op)
    (hobj : ((tasksOf ops).map SchedulerTask.addr).Nodup) :
    ((dispatchedTasks (run Scheduler.init ops).2).map SchedulerTask.addr).Nodup ∧
    ((∀ t ∈ tasksOf ops, t.eventId = 0) → (tasksOf ops).length < 2 ^ 32 →
      ((dispatchedTasks (run Scheduler.init ops).2).map SchedulerTask.eventId).Nodup) := by
  constructor
  · exact (run_nodup SchedulerTask.addr (fun _ => rfl) ops Scheduler.init rfl
      ((storedTasks_addr ops Scheduler.init).nodup hobj)).1
  · intro h0 hroom
    exact (run_nodup SchedulerTask.eventId (fun _ => rfl) ops Scheduler.init rfl
      (storedTasks_eventId_nodup ops h0 hroom)).1

/-- An instance of amended C7: two tasks scheduled without identity and
dispatched, a third pass of the loop finding nothing. -/
theorem dispatch_at_most_once_witness :
    ((dispatchedTasks (run Scheduler.init
      [Op.addEvent (mkTask 1 0 10), Op.threadMain cv_status.timeout,
       Op.addEvent (mkTask 2 0 20), Op.threadMain cv_status.timeout,
       Op.threadMain cv_status.timeout]).2).map SchedulerTask.addr).Nodup ∧
    ((dispatchedTasks (run Scheduler.init
      [Op.addEvent (mkTask 1 0 10), Op.threadMain cv_status.timeout,
       Op.addEvent (mkTask 2 0 20), Op.threadMain cv_status.timeout,
       Op.threadMain cv_status.timeout]).2).map SchedulerTask.eventId).Nodup :=
  have h := dispatch_at_most_once
    [Op.addEvent (mkTask 1 0 10), Op.threadMain cv_status.timeout,
     Op.addEvent (mkTask 2 0 20), Op.threadMain cv_status.timeout,
     Op.threadMain cv_status.timeout] (by decide)
  ⟨h.1, h.2 (by decide) (by decide)⟩

/-- C8, as stated, fails: two distinct tasks are scheduled under identity 5;
both are in the heap, 5 is in the pending set, and neither has been cancelled
or dispatched. -/
theorem pending_tasks_share_identity :
    (run Scheduler.init [Op.addEvent (mkTask 1 5 10), Op.addEvent (mkTask 2 5 20)]).1.eventList =
      [mkTask 1 5 10, mkTask 2 5 20] ∧
    (mkTask 1 5 10).addr ≠ (mkTask 2 5 20).addr ∧
    (mkTask 1 5 10).eventId = (mkTask 2 5 20).eventId ∧
    5 ∈ (run Scheduler.init [Op.addEvent (mkTask 1 5 10), Op.addEvent (mkTask 2 5 20)]).1.eventIds ∧
    (run Scheduler.init [Op.addEvent (mkTask 1 5 10), Op.addEvent (mkTask 2 5 20)]).2 =
      [Event.added 5 true, Event.added 5 false] := by
  decide

/-- C8, amended: in every state reached from the empty RUNNING scheduler by an
execution in which every task comes with identity 0 and fewer than 2^32 tasks
are handed to `addEvent`, no two entries of the heap share an identity, so no
two tasks pending at the same time do. -/
theorem pending_identities_unique (ops : List Op)
    (h0 : ∀ t ∈ tasksOf ops, t.eventId = 0) (hroom : (tasksOf ops).length < 2 ^ 32) :
    ((run Scheduler.init ops).1.eventList.map SchedulerTask.eventId).Nodup :=
  (run_nodup SchedulerTask.eventId (fun _ => rfl) ops Scheduler.init rfl
    (storedTasks_eventId_nodup ops h0 hroom)).2

/-- An instance of amended C8: three tasks scheduled without identity, one of
them cancelled, one dispatched. -/
theorem pending_identities_unique_witness :
    ((run Scheduler.init
      [Op.addEvent (mkTask 1 0 30), Op.addEvent (mkTask 2 0 10), Op.stopEvent 1,
       Op.threadMain cv_status.timeout, Op.addEvent (mkTask 3 0 20)]).1.eventList.map
        SchedulerTask.eventId).Nodup :=
  pending_identities_unique
    [Op.addEvent (mkTask 1 0 30), Op.addEvent (mkTask 2 0 10), Op.stopEvent 1,
     Op.threadMain cv_status.timeout, Op.addEvent (mkTask 3 0 20)] (by decide) (by decide)

/-! ## The order of dispatch -/

theorem timeout_step {s : Scheduler} (h : s.AllPending) {t : SchedulerTask}
    (htop : PriorityQueue.top s.eventList = some t) :
    step s (Op.threadMain cv_status.timeout) =
      ({ s with eventList := PriorityQueue.pop s.eventList,
                eventIds := s.eventIds.erase t.eventId },
        Event.dispatched t.setDontExpire true) ∧
    (step s (Op.threadMain cv_status.timeout)).1.AllPending := by
  have hmem : t.eventId ∈ s.eventIds := h.2 t (top_mem htop)
  have hne : PriorityQueue.empty s.eventList = false := by
    cases hl : s.eventList with
    | nil => simp [hl, PriorityQueue.top] at htop
    | cons a l => rfl
  have hstep : step s (Op.threadMain cv_status.timeout) =
      ({ s with eventList := PriorityQueue.pop s.eventList,
                eventIds := s.eventIds.erase t.eventId },
        Event.dispatched t.setDontExpire true) := by
    simp [step, Scheduler.threadMain, hne, htop, hmem]
  refine ⟨hstep, ?_⟩
  rw [hstep]
  have hp := (pop_perm htop).map SchedulerTask.eventId
  have hnd : (t.eventId :: (PriorityQueue.pop s.eventList).map SchedulerTask.eventId).Nodup :=
    hp.nodup_iff.1 h.1
  rw [List.nodup_cons] at hnd
  refine ⟨hnd.2, ?_⟩
  intro u hu
  have hu_in : u ∈ s.eventList := (pop_perm htop).symm.subset (List.mem_cons_of_mem _ hu)
  have hneq : u.eventId ≠ t.eventId := fun he =>
    hnd.1 (he ▸ List.mem_map_of_mem SchedulerTask.eventId hu)
  exact Finset.mem_erase.2 ⟨hneq, h.2 u hu_in⟩

theorem timeout_step_empty {s : Scheduler} (h : s.eventList = []) :
    step s (Op.threadMain cv_status.timeout) = (s, Event.idle) := by
  simp [step, Scheduler.threadMain, h, PriorityQueue.empty]

theorem timeouts_succ (s : Scheduler) (n : Nat) :
    run s (timeouts (n + 1)) =
      ((run (step s (Op.threadMain cv_status.timeout)).1 (timeouts n)).1,
        (step s (Op.threadMain cv_status.timeout)).2 ::
          (run (step s (Op.threadMain cv_status.timeout)).1 (timeouts n)).2) := by
  simp [timeouts, List.replicate_succ, run]

/-- After any number of timeout passes every entry left is still pending, and
each pass has taken one entry for as long as there was one. -/
theorem timeouts_allPending (k : Nat) (s : Scheduler) (h : s.AllPending) :
    (run s (timeouts k)).1.AllPending ∧
    (run s (timeouts k)).1.eventList.length = s.eventList.length - k := by
  induction k generalizing s with
  | zero => simp [timeouts, run, h]
  | succ k ih =>
    rw [timeouts_succ]
    cases htop : PriorityQueue.top s.eventList with
    | none =>
      have hl : s.eventList = [] := (top_eq_none_iff _).1 htop
      have hrec := ih s h
      rw [timeout_step_empty hl]
      simp only at hrec ⊢
      refine ⟨hrec.1, ?_⟩
      rw [hrec.2, hl]
      simp
    | some t =>
      have hs := timeout_step h htop
      have hrec := ih _ hs.2
      have hlen := length_pop htop
      refine ⟨hrec.1, ?_⟩
      simp only
      rw [hrec.2, hs.1]
      simp only
      omega

/-- Timeout passes, one per entry, dispatch the whole heap in the order of the
deadlines. -/
theorem timeouts_sorted (n : Nat) (s : Scheduler) (h : s.AllPending)
    (hn : s.eventList.length = n) :
    (run s (timeouts n)).1.eventList = [] ∧
    (dispatchedTasks (run s (timeouts n)).2).Perm
      (s.eventList.map SchedulerTask.setDontExpire) ∧
    ((dispatchedTasks (run s (timeouts n)).2).map SchedulerTask.cycle).Pairwise (· ≤ ·) := by
  induction n generalizing s with
  | zero =>
    have hl : s.eventList = [] := List.length_eq_zero.1 hn
    simp [timeouts, run, dispatchedTasks, hl]
  | succ n ih =>
    cases htop : PriorityQueue.top s.eventList with
    | none =>
      have hl : s.eventList = [] := (top_eq_none_iff _).1 htop
      simp [hl] at hn
    | some t =>
      have hs := timeout_step h htop
      have hlen := length_pop htop
      have hrec := ih (step s (Op.threadMain cv_status.timeout)).1 hs.2 (by
        rw [hs.1]; simp only; omega)
      rw [timeouts_succ]
      simp only
      refine ⟨hrec.1, ?_, ?_⟩
      · rw [hs.1] at hrec ⊢
        simp only [dispatchedTasks] at hrec ⊢
        exact (hrec.2.1.cons _).trans ((pop_perm htop).map SchedulerTask.setDontExpire).symm
      · rw [hs.1] at hrec ⊢
        simp only [dispatchedTasks, List.map_cons, List.pairwise_cons] at hrec ⊢
        refine ⟨?_, hrec.2.2⟩
        intro c hc
        obtain ⟨d, hd, rfl⟩ := List.mem_map.1 hc
        have hd2 := hrec.2.1.subset hd
        obtain ⟨u, hu, rfl⟩ := List.mem_map.1 hd2
        exact top_le htop u ((pop_perm htop).symm.subset (List.mem_cons_of_mem _ hu))

theorem scheduleAll_cons (s : Scheduler) (t : SchedulerTask) (ts : List SchedulerTask) :
    scheduleAll s (t :: ts) = scheduleAll (s.addEvent t).sched ts := by
  simp [scheduleAll, run, step]

/-- Scheduling on a RUNNING scheduler adds the tasks to the heap in order,
with their addresses and deadlines, and puts each identity in the pending
set. -/
theorem scheduleAll_spec (ts : List SchedulerTask) (s : Scheduler)
    (hrun : s.state = ThreadState.THREAD_STATE_RUNNING)
    (hp : ∀ t ∈ s.eventList, t.eventId ∈ s.eventIds) :
    (∀ t ∈ (scheduleAll s ts).eventList, t.eventId ∈ (scheduleAll s ts).eventIds) ∧
    (scheduleAll s ts).eventList.map SchedulerTask.addr =
      s.eventList.map SchedulerTask.addr ++ ts.map SchedulerTask.addr ∧
    (scheduleAll s ts).eventList.map SchedulerTask.cycle =
      s.eventList.map SchedulerTask.cycle ++ ts.map SchedulerTask.cycle := by
  induction ts generalizing s with
  | nil => simpa [scheduleAll, run] using hp
  | cons a ts ih =>
    rw [scheduleAll_cons]
    have hrun1 : (s.addEvent a).sched.state = ThreadState.THREAD_STATE_RUNNING := by
      simp [Scheduler.addEvent, hrun]
    have hl : ∃ b : SchedulerTask, b.addr = a.addr ∧ b.cycle = a.cycle ∧
        (s.addEvent a).sched.eventList = s.eventList ++ [b] ∧
        (s.addEvent a).sched.eventIds = insert b.eventId s.eventIds := by
      by_cases h0 : a.eventId = 0
      · exact ⟨a.setEventId (nextEventId s.lastEventId), rfl, rfl,
          by simp [Scheduler.addEvent, hrun, h0, PriorityQueue.push],
          by simp [Scheduler.addEvent, hrun, h0]⟩
      · exact ⟨a, rfl, rfl, by simp [Scheduler.addEvent, hrun, h0, PriorityQueue.push],
          by simp [Scheduler.addEvent, hrun, h0]⟩
    obtain ⟨b, hba, hbc, hbl, hbi⟩ := hl
    have hp1 : ∀ t ∈ (s.addEvent a).sched.eventList, t.eventId ∈ (s.addEvent a).sched.eventIds := by
      intro t ht
      rw [hbl] at ht
      rw [hbi]
      rcases List.mem_append.1 ht with ht | ht
      · exact Finset.mem_insert_of_mem (hp t ht)
      · simp only [List.mem_singleton] at ht
        subst ht
        exact Finset.mem_insert_self _ _
    have hrec := ih (s.addEvent a).sched hrun1 hp1
    refine ⟨hrec.1, ?_, ?_⟩
    · rw [hrec.2.1, hbl]
      simp [hba]
    · rw [hrec.2.2, hbl]
      simp [hbc]

/-- C9: dispatch order. Tasks with pairwise distinct deadlines are handed to
`addEvent` on a RUNNING scheduler with an empty heap and end up under pairwise
distinct identities; none is cancelled. Then the heap holds exactly these
tasks, and timeout passes of the waiting loop, one per task, hand all of them
to the dispatcher in strictly increasing order of deadline and leave the heap
empty; the pass number `k` dispatches the top of the heap, whose deadline is
the earliest of all the entries left. -/
theorem dispatch_order (s : Scheduler) (ts : List SchedulerTask)
    (hrun : s.state = ThreadState.THREAD_STATE_RUNNING) (hempty : s.eventList = [])
    (hcycle : (ts.map SchedulerTask.cycle).Nodup)
    (hid : ((scheduleAll s ts).eventList.map SchedulerTask.eventId).Nodup) :
    (scheduleAll s ts).eventList.map SchedulerTask.addr = ts.map SchedulerTask.addr ∧
    (scheduleAll s ts).eventList.map SchedulerTask.cycle = ts.map SchedulerTask.cycle ∧
    (dispatchedTasks (run (scheduleAll s ts) (timeouts ts.length)).2).Perm
      ((scheduleAll s ts).eventList.map SchedulerTask.setDontExpire) ∧
    ((dispatchedTasks (run (scheduleAll s ts) (timeouts ts.length)).2).map
      SchedulerTask.cycle).Pairwise (· < ·) ∧
    (run (scheduleAll s ts) (timeouts ts.length)).1.eventList = [] ∧
    ∀ k, k < ts.length →
      ∃ t, PriorityQueue.top (run (scheduleAll s ts) (timeouts k)).1.eventList = some t ∧
        (∀ u ∈ (run (scheduleAll s ts) (timeouts k)).1.eventList, t.cycle ≤ u.cycle) ∧
        (step (run (scheduleAll s ts) (timeouts k)).1 (Op.threadMain cv_status.timeout)).2 =
          Event.dispatched t.setDontExpire true := by
  have hspec := scheduleAll_spec ts s hrun (by simp [hempty])
  simp only [hempty, List.map_nil, List.nil_append] at hspec
  have hall : (scheduleAll s ts).AllPending := ⟨hid, hspec.1⟩
  have hlen : (scheduleAll s ts).eventList.length = ts.length := by
    simpa using congrArg List.length hspec.2.1
  have hsorted := timeouts_sorted ts.length (scheduleAll s ts) hall hlen
  refine ⟨hspec.2.1, hspec.2.2, hsorted.2.1, ?_, hsorted.1, ?_⟩
  · have hperm := hsorted.2.1.map SchedulerTask.cycle
    have hmap : ((scheduleAll s ts).eventList.map SchedulerTask.setDontExpire).map
        SchedulerTask.cycle = ts.map SchedulerTask.cycle := by
      rw [← hspec.2.2, List.map_map]
      rfl
    rw [hmap] at hperm
    have hnd : ((dispatchedTasks (run (scheduleAll s ts) (timeouts ts.length)).2).map
        SchedulerTask.cycle).Nodup := hperm.nodup_iff.2 hcycle
    exact (hsorted.2.2.and hnd).imp (fun h => Nat.lt_of_le_of_ne h.1 h.2)
  · intro k hk
    have hk1 := timeouts_allPending k (scheduleAll s ts) hall
    cases htop : PriorityQueue.top (run (scheduleAll s ts) (timeouts k)).1.eventList with
    | none =>
      have hl := (top_eq_none_iff _).1 htop
      have := hk1.2
      rw [hl, hlen] at this
      simp only [List.length_nil] at this
      omega
    | some t =>
      exact ⟨t, rfl, top_le htop, by rw [(timeout_step hk1.1 htop).1]⟩

/-- Scenario A of the spec as an instance of C9: X is scheduled with deadline
50 and Y after it with deadline 10; Y is dispatched first. -/
theorem dispatch_order_witness :
    dispatchedTasks (run (scheduleAll Scheduler.init [mkTask 1 0 50, mkTask 2 0 10])
      (timeouts 2)).2 = [(mkTask 2 2 10).setDontExpire, (mkTask 1 1 50).setDontExpire] ∧
    ((dispatchedTasks (run (scheduleAll Scheduler.init [mkTask 1 0 50, mkTask 2 0 10])
      (timeouts [mkTask 1 0 50, mkTask 2 0 10].length)).2).map
        SchedulerTask.cycle).Pairwise (· < ·) :=
  ⟨by decide,
   (dispatch_order Scheduler.init [mkTask 1 0 50, mkTask 2 0 10] rfl rfl (by decide)
     (by decide)).2.2.2.1⟩

/-! ## `shutdown` twice -/

/-- C11: `shutdown` is idempotent in effect. A second `shutdown` leaves the
scheduler exactly as the first one did (TERMINATED, empty heap, empty pending
set, the counter as it was before either call), deletes no task and
dispatches none. -/
theorem shutdown_idempotent (s : Scheduler) :
    s.shutdown.1.shutdown.1 = s.shutdown.1 ∧
    s.shutdown.1.shutdown.2 = [] ∧
    s.shutdown.1.state = ThreadState.THREAD_STATE_TERMINATED ∧
    s.shutdown.1.eventList = [] ∧
    s.shutdown.1.eventIds = ∅ ∧
    s.shutdown.1.lastEventId = s.lastEventId ∧
    dispatchedTasks [(step s.shutdown.1 Op.shutdown).2] = [] := by
  have hd := shutdown_drained s
  refine ⟨?_, ?_, hd.1, hd.2.1, hd.2.2, rfl, ?_⟩
  · have hl : s.shutdown.1.eventList = [] := hd.2.1
    have hst : s.shutdown.1.state = ThreadState.THREAD_STATE_TERMINATED := hd.1
    have hi : s.shutdown.1.eventIds = ∅ := hd.2.2
    generalize s.shutdown.1 = u at hl hst hi
    cases u
    simp only at hl hst hi
    simp [Scheduler.shutdown, hl, hst, hi, drain]
  · have hl : (drain s.eventList.length s.eventList).1 = [] := hd.2.1
    simp [Scheduler.shutdown, hl, drain]
  · simp [step, dispatchedTasks]

/-! ## The sentinel identity 0 -/

theorem step_nonzero {s : Scheduler} (op : Op)
    (h : 0 ∉ s.eventIds ∧ ∀ t ∈ s.eventList, t.eventId ≠ 0) :
    0 ∉ (step s op).1.eventIds ∧ ∀ t ∈ (step s op).1.eventList, t.eventId ≠ 0 := by
  obtain ⟨hset, hheap⟩ := h
  cases op with
  | addEvent task =>
    by_cases hst : s.state = ThreadState.THREAD_STATE_RUNNING
    · by_cases h0 : task.eventId = 0
      · have hn := nextEventId_ne_zero s.lastEventId
        simp only [step, Scheduler.addEvent, hst, h0, if_true, SchedulerTask.setEventId,
          Finset.mem_insert, not_or, PriorityQueue.push, List.mem_append, List.mem_singleton]
        refine ⟨⟨fun he => hn he.symm, hset⟩, ?_⟩
        rintro t (ht | rfl)
        · exact hheap t ht
        · exact hn
      · simp only [step, Scheduler.addEvent, hst, h0, if_true, if_false,
          Finset.mem_insert, not_or, PriorityQueue.push, List.mem_append, List.mem_singleton]
        refine ⟨⟨fun he => h0 he.symm, hset⟩, ?_⟩
        rintro t (ht | rfl)
        · exact hheap t ht
        · exact h0
    · simpa [step, Scheduler.addEvent, hst] using ⟨hset, hheap⟩
  | stopEvent e =>
    simp only [step, Scheduler.stopEvent]
    by_cases h0 : e = 0
    · simpa [h0] using ⟨hset, hheap⟩
    · by_cases hm : e ∈ s.eventIds
      · simpa [h0, hm, Finset.mem_erase, hset] using hheap
      · simpa [h0, hm] using ⟨hset, hheap⟩
  | threadMain ret =>
    rcases threadMain_cases s ret with hr | ⟨t, htop, _, hr⟩ | ⟨t, htop, _, hr⟩
    · simpa [step, hr] using ⟨hset, hheap⟩
    · simp only [step, hr]
      exact ⟨hset, fun u hu =>
        hheap u ((pop_perm htop).symm.subset (List.mem_cons_of_mem _ hu))⟩
    · simp only [step, hr, Finset.mem_erase, not_and]
      exact ⟨fun _ => hset, fun u hu =>
        hheap u ((pop_perm htop).symm.subset (List.mem_cons_of_mem _ hu))⟩
  | shutdown =>
    have hd := shutdown_drained s
    simp only [step]
    rw [hd.2.1, hd.2.2]
    simp

theorem run_nonzero (ops : List Op) (s : Scheduler)
    (h : 0 ∉ s.eventIds ∧ ∀ t ∈ s.eventList, t.eventId ≠ 0) :
    0 ∉ (run s ops).1.eventIds ∧ ∀ t ∈ (run s ops).1.eventList, t.eventId ≠ 0 := by
  induction ops generalizing s with
  | nil => simpa [run] using h
  | cons op ops ih =>
    simp only [run]
    exact ih _ (step_nonzero op h)

/-- C17: the sentinel identity 0 is never assigned. In every state reached
from the empty RUNNING scheduler, 0 is not in the pending set and no entry of
the heap has identity 0; so the early return of `stopEvent 0`, taken before
the lock, gives what the lookup in the pending set would give: false, with the
scheduler unchanged. -/
theorem zero_never_assigned (ops : List Op) :
    0 ∉ (run Scheduler.init ops).1.eventIds ∧
    (∀ t ∈ (run Scheduler.init ops).1.eventList, t.eventId ≠ 0) ∧
    (run Scheduler.init ops).1.stopEvent 0 = ((run Scheduler.init ops).1, false) ∧
    (run Scheduler.init ops).1.stopEvent 0 = (run Scheduler.init ops).1.stopEventLookup 0 := by
  have h := run_nonzero ops Scheduler.init (by simp [Scheduler.init])
  refine ⟨h.1, h.2, ?_, ?_⟩
  · simp [Scheduler.stopEvent]
  · simp [Scheduler.stopEvent, Scheduler.stopEventLookup, h.1]

/-! ## The timeout pass of the waiting loop -/

theorem timeout_pass {s : Scheduler} {t : SchedulerTask}
    (htop : PriorityQueue.top s.eventList = some t) :
    (t.eventId ∈ s.eventIds →
      s.threadMain cv_status.timeout =
        { sched := { s with eventList := PriorityQueue.pop s.eventList,
                            eventIds := s.eventIds.erase t.eventId },
          dispatched := some (t.setDontExpire, true), deleted := none }) ∧
    (t.eventId ∉ s.eventIds →
      s.threadMain cv_status.timeout =
        { sched := { s with eventList := PriorityQueue.pop s.eventList },
          dispatched := none, deleted := some t }) := by
  have hne : PriorityQueue.empty s.eventList = false := by
    cases hl : s.eventList with
    | nil => simp [hl, PriorityQueue.top] at htop
    | cons a l => rfl
  constructor
  · intro hm
    simp [Scheduler.threadMain, hne, htop, hm]
  · intro hm
    simp [Scheduler.threadMain, hne, htop, hm]

/-- C14: the timeout pass of the waiting loop on a non-empty heap removes
exactly the top entry. It hands that task to the dispatcher exactly when its
identity is in the pending set; then the identity leaves the pending set and
the task goes out marked as not expiring, with the flag true. When the
identity is absent the task is deleted, nothing is dispatched and the pending
set is unchanged. The state and the counter are untouched either way. -/
theorem timeout_pass_behaviour (s : Scheduler) (hne : s.eventList ≠ []) :
    ∃ t, PriorityQueue.top s.eventList = some t ∧
      (s.threadMain cv_status.timeout).sched.eventList = PriorityQueue.pop s.eventList ∧
      s.eventList.Perm (t :: (s.threadMain cv_status.timeout).sched.eventList) ∧
      ((s.threadMain cv_status.timeout).dispatched ≠ none ↔ t.eventId ∈ s.eventIds) ∧
      (t.eventId ∈ s.eventIds →
        (s.threadMain cv_status.timeout).dispatched = some (t.setDontExpire, true) ∧
        t.setDontExpire.dontExpire = true ∧
        (s.threadMain cv_status.timeout).deleted = none ∧
        (s.threadMain cv_status.timeout).sched.eventIds = s.eventIds.erase t.eventId) ∧
      (t.eventId ∉ s.eventIds →
        (s.threadMain cv_status.timeout).dispatched = none ∧
        (s.threadMain cv_status.timeout).deleted = some t ∧
        (s.threadMain cv_status.timeout).sched.eventIds = s.eventIds) ∧
      (s.threadMain cv_status.timeout).sched.state = s.state ∧
      (s.threadMain cv_status.timeout).sched.lastEventId = s.lastEventId := by
  cases htop : PriorityQueue.top s.eventList with
  | none => exact absurd ((top_eq_none_iff _).1 htop) hne
  | some t =>
    have hp := timeout_pass htop
    have hperm := pop_perm htop
    refine ⟨t, rfl, ?_⟩
    by_cases hm : t.eventId ∈ s.eventIds
    · rw [hp.1 hm]
      simp [hm, hperm, SchedulerTask.setDontExpire]
    · rw [hp.2 hm]
      simp [hm, hperm]

/-- An instance of C14: with two tasks scheduled and the earlier one
cancelled, the timeout pass takes the top entry out of the heap, and it
dispatches exactly when the identity of that entry is pending. -/
theorem timeout_pass_behaviour_witness :
    ∃ t, PriorityQueue.top
        (run Scheduler.init [Op.addEvent (mkTask 1 0 50), Op.addEvent (mkTask 2 0 10),
          Op.stopEvent 2]).1.eventList = some t ∧
      (((run Scheduler.init [Op.addEvent (mkTask 1 0 50), Op.addEvent (mkTask 2 0 10),
          Op.stopEvent 2]).1.threadMain cv_status.timeout).dispatched ≠ none ↔
        t.eventId ∈ (run Scheduler.init [Op.addEvent (mkTask 1 0 50),
          Op.addEvent (mkTask 2 0 10), Op.stopEvent 2]).1.eventIds) :=
  (timeout_pass_behaviour
    (run Scheduler.init [Op.addEvent (mkTask 1 0 50), Op.addEvent (mkTask 2 0 10),
      Op.stopEvent 2]).1 (by decide)).imp fun _ ht => ⟨ht.1, ht.2.2.2.1⟩

/-! ## The race between cancellation and the timeout -/

/-- C13: the cancellation race is exclusive. In a state reached from the empty
RUNNING scheduler in which `t` is the top of the heap and its identity is
pending, the two atomic orders of `stopEvent` and the timeout pass give one
outcome each. Loop first: `t` is dispatched and the `stopEvent` that follows
returns false. `stopEvent` first: it returns true and the pass that follows
pops `t` and deletes it without a dispatch. -/
theorem cancellation_race_exclusive (ops : List Op) (t : SchedulerTask)
    (htop : PriorityQueue.top (run Scheduler.init ops).1.eventList = some t)
    (hmem : t.eventId ∈ (run Scheduler.init ops).1.eventIds) :
    (((run Scheduler.init ops).1.threadMain cv_status.timeout).dispatched =
        some (t.setDontExpire, true) ∧
      (((run Scheduler.init ops).1.threadMain cv_status.timeout).sched.stopEvent
        t.eventId).2 = false) ∧
    (((run Scheduler.init ops).1.stopEvent t.eventId).2 = true ∧
      (((run Scheduler.init ops).1.stopEvent t.eventId).1.threadMain
        cv_status.timeout).dispatched = none ∧
      (((run Scheduler.init ops).1.stopEvent t.eventId).1.threadMain
        cv_status.timeout).deleted = some t ∧
      (((run Scheduler.init ops).1.stopEvent t.eventId).1.threadMain
        cv_status.timeout).sched.eventList =
          PriorityQueue.pop (run Scheduler.init ops).1.eventList) := by
  have hz := (run_nonzero ops Scheduler.init (by simp [Scheduler.init])).1
  generalize (run Scheduler.init ops).1 = s at htop hmem hz
  have h0 : t.eventId ≠ 0 := fun he => hz (he ▸ hmem)
  constructor
  · rw [(timeout_pass htop).1 hmem]
    simp [Scheduler.stopEvent]
  · have hs : s.stopEvent t.eventId =
        ({ s with eventIds := s.eventIds.erase t.eventId }, true) := by
      simp [Scheduler.stopEvent, h0, hmem]
    rw [hs]
    have htop2 : PriorityQueue.top
        ({ s with eventIds := s.eventIds.erase t.eventId } : Scheduler).eventList = some t := htop
    have hp := (timeout_pass htop2).2 (by simp)
    rw [hp]
    simp

/-- Scenarios B and C of the spec as an instance of C13: one task is
scheduled; a `stopEvent` after the timeout pass returns false, one before it
returns true. -/
theorem cancellation_race_exclusive_witness :
    ((((run Scheduler.init [Op.addEvent (mkTask 1 0 100)]).1.threadMain
        cv_status.timeout).sched.stopEvent (mkTask 1 1 100).eventId).2 = false) ∧
    (((run Scheduler.init [Op.addEvent (mkTask 1 0 100)]).1.stopEvent
        (mkTask 1 1 100).eventId).2 = true) :=
  have h := cancellation_race_exclusive [Op.addEvent (mkTask 1 0 100)] (mkTask 1 1 100)
    (by decide) (by decide)
  ⟨h.1.2, h.2.1⟩

/-! ## The wake signal of `addEvent` -/

theorem addEvent_running (s : Scheduler) (task : SchedulerTask)
    (hrun : s.state = ThreadState.THREAD_STATE_RUNNING) :
    ∃ b : SchedulerTask, b.cycle = task.cycle ∧ b.addr = task.addr ∧
      (s.addEvent task).task = some b ∧
      (s.addEvent task).sched.eventList = s.eventList ++ [b] ∧
      (s.addEvent task).do_signal = decide (some b = PriorityQueue.top (s.eventList ++ [b])) := by
  by_cases h0 : task.eventId = 0
  · exact ⟨task.setEventId (nextEventId s.lastEventId), rfl, rfl,
      by simp [Scheduler.addEvent, hrun, h0],
      by simp [Scheduler.addEvent, hrun, h0, PriorityQueue.push],
      by simp [Scheduler.addEvent, hrun, h0, PriorityQueue.push]⟩
  · exact ⟨task, rfl, rfl, by simp [Scheduler.addEvent, hrun, h0],
      by simp [Scheduler.addEvent, hrun, h0, PriorityQueue.push],
      by simp [Scheduler.addEvent, hrun, h0, PriorityQueue.push]⟩

/-- C15: the wake signal of `addEvent` on a RUNNING scheduler is requested
exactly when the task inserted is the top of the heap after the push. So it is
requested when the heap was empty and when the deadline of the new task is
strictly earlier than that of every entry, and it is not requested when some
entry has a strictly earlier deadline. -/
theorem addEvent_signal (s : Scheduler) (task : SchedulerTask)
    (hrun : s.state = ThreadState.THREAD_STATE_RUNNING) :
    ((s.addEvent task).do_signal = true ↔
      PriorityQueue.top (s.addEvent task).sched.eventList = (s.addEvent task).task) ∧
    (s.addEvent task).task ≠ none ∧
    (s.eventList = [] → (s.addEvent task).do_signal = true) ∧
    ((∀ u ∈ s.eventList, task.cycle < u.cycle) → (s.addEvent task).do_signal = true) ∧
    ((∃ u ∈ s.eventList, u.cycle < task.cycle) → (s.addEvent task).do_signal = false) := by
  obtain ⟨b, hbc, _, hbt, hbl, hbs⟩ := addEvent_running s task hrun
  rw [hbt, hbl, hbs]
  have hearly : (∀ u ∈ s.eventList, task.cycle < u.cycle) →
      some b = PriorityQueue.top (s.eventList ++ [b]) := by
    intro hall
    cases htop : PriorityQueue.top (s.eventList ++ [b]) with
    | none => simp [top_eq_none_iff] at htop
    | some m =>
      have hm := top_mem htop
      have hle := top_le htop b (by simp)
      rcases List.mem_append.1 hm with hm | hm
      · have := hall m hm
        omega
      · simp only [List.mem_singleton] at hm
        rw [hm]
  refine ⟨?_, by simp, ?_, ?_, ?_⟩
  · simp [eq_comm]
  · intro hl
    have := hearly (by simp [hl])
    simpa using this
  · intro hall
    simpa using hearly hall
  · rintro ⟨u, hu, hlt⟩
    simp only [decide_eq_false_iff_not]
    intro htop
    have hle := top_le htop.symm u (by simp [hu])
    omega

/-- An instance of C15: a task scheduled on the empty heap is signalled, a
later task with a later deadline is not, and one with an earlier deadline is. -/
theorem addEvent_signal_witness :
    (Scheduler.init.addEvent (mkTask 1 0 50)).do_signal = true ∧
    ((Scheduler.init.addEvent (mkTask 1 0 50)).sched.addEvent (mkTask 2 0 70)).do_signal = false ∧
    ((Scheduler.init.addEvent (mkTask 1 0 50)).sched.addEvent (mkTask 3 0 10)).do_signal = true :=
  ⟨(addEvent_signal Scheduler.init (mkTask 1 0 50) rfl).2.2.1 rfl,
   (addEvent_signal (Scheduler.init.addEvent (mkTask 1 0 50)).sched (mkTask 2 0 70)
      rfl).2.2.2.2 ⟨mkTask 1 1 50, by decide, by decide⟩,
   (addEvent_signal (Scheduler.init.addEvent (mkTask 1 0 50)).sched (mkTask 3 0 10)
      rfl).2.2.2.1 (by decide)⟩

/-! ## The wait on an empty heap -/

/-- C16 fails on the code: on a scheduler that is not terminated and whose heap
is empty, the wait of the loop is entered with a predicate, `eventList.empty()`,
that is already true, so it returns at once without blocking; the pass then
takes the branch that only unlocks, and the scheduler is as it was, so the
next pass does the same. -/
theorem empty_heap_wait_returns (s : Scheduler)
    (hst : s.state ≠ ThreadState.THREAD_STATE_TERMINATED) (hl : s.eventList = []) :
    s.threadMainWait = LoopWait.returned_at_once ∧
    s.threadMain cv_status.no_timeout = { sched := s, dispatched := none, deleted := none } ∧
    (s.threadMain cv_status.no_timeout).sched.threadMainWait = LoopWait.returned_at_once := by
  have hw : s.threadMainWait = LoopWait.returned_at_once := by
    simp [Scheduler.threadMainWait, hst, hl, PriorityQueue.empty, waitBlocks]
  have hb : s.threadMain cv_status.no_timeout =
      { sched := s, dispatched := none, deleted := none } := by
    simp [Scheduler.threadMain]
  exact ⟨hw, hb, by rw [hb]; exact hw⟩

/-- The scheduler as constructed, as the instance of the pass on an empty
heap: the wait does not block. -/
theorem empty_heap_wait_returns_witness :
    Scheduler.init.threadMainWait = LoopWait.returned_at_once :=
  (empty_heap_wait_returns Scheduler.init (by decide) rfl).1

/-! ## The pending set against the heap -/

theorem tracked_congr {s : Scheduler} {C D : Nat → Prop} (h : ∀ id, C id ↔ D id)
    (ht : s.Tracked C) : s.Tracked D := by
  have hCD : C = D := funext fun id => propext (h id)
  rw [← hCD]
  exact ht

theorem tracked_pop {s : Scheduler} {C : Nat → Prop} {t : SchedulerTask} (h : s.Tracked C)
    (htop : PriorityQueue.top s.eventList = some t) (ids : Finset Nat)
    (hids : ∀ id, id ∈ ids ↔ id ≠ t.eventId ∧ id ∈ s.eventIds) :
    ({ s with eventList := PriorityQueue.pop s.eventList, eventIds := ids } : Scheduler).Tracked
      C := by
  obtain ⟨hnd, hle, hcar, hpen, hC⟩ := h
  have hperm := pop_perm htop
  have hsub : ∀ u ∈ PriorityQueue.pop s.eventList, u ∈ s.eventList :=
    fun u hu => hperm.symm.subset (List.mem_cons_of_mem _ hu)
  have hnd2 : (t.eventId :: (PriorityQueue.pop s.eventList).map SchedulerTask.eventId).Nodup :=
    (hperm.map SchedulerTask.eventId).nodup_iff.1 hnd
  rw [List.nodup_cons] at hnd2
  have hne : ∀ u ∈ PriorityQueue.pop s.eventList, u.eventId ≠ t.eventId :=
    fun u hu he => hnd2.1 (he ▸ List.mem_map_of_mem SchedulerTask.eventId hu)
  refine ⟨hnd2.2, fun u hu => hle u (hsub u hu), ?_, ?_, hC⟩
  · intro id hid
    have hid2 := (hids id).1 hid
    obtain ⟨u, hu, hue⟩ := hcar id hid2.2
    rcases List.mem_cons.1 (hperm.subset hu) with rfl | hu2
    · exact absurd hue (Ne.symm hid2.1)
    · exact ⟨u, hu2, hue⟩
  · intro u hu
    simp only
    rw [hids u.eventId]
    constructor
    · intro hm
      exact (hpen u (hsub u hu)).1 hm.2
    · intro hc
      exact ⟨hne u hu, (hpen u (hsub u hu)).2 hc⟩

theorem step_tracked {s : Scheduler} {C : Nat → Prop} (op : Op) (h : s.Tracked C)
    (h0 : ∀ t ∈ tasksOf [op], t.eventId = 0)
    (hroom : s.lastEventId + (tasksOf [op]).length < 2 ^ 32) :
    (step s op).1.Tracked
      (fun id => C id ∨ (op, (step s op).2) = (Op.stopEvent id, Event.stopped true)) ∧
    (step s op).1.lastEventId ≤ s.lastEventId + (tasksOf [op]).length := by
  obtain ⟨hnd, hle, hcar, hpen, hC⟩ := h
  cases op with
  | addEvent task =>
    have ht0 : task.eventId = 0 := h0 task (by simp [tasksOf])
    simp only [tasksOf, List.length_singleton] at hroom
    by_cases hst : s.state = ThreadState.THREAD_STATE_RUNNING
    · have hnext : nextEventId s.lastEventId = s.lastEventId + 1 := by
        unfold nextEventId
        rw [Nat.mod_eq_of_lt hroom]
        simp
      have hs : (step s (Op.addEvent task)).1 =
          { state := s.state, lastEventId := s.lastEventId + 1,
            eventList := s.eventList ++ [task.setEventId (s.lastEventId + 1)],
            eventIds := insert (s.lastEventId + 1) s.eventIds } := by
        simp [step, Scheduler.addEvent, hst, ht0, hnext, PriorityQueue.push,
          SchedulerTask.setEventId]
      refine ⟨?_, by rw [hs]; simp [tasksOf]⟩
      apply tracked_congr (C := C)
      · intro id
        simp [step]
      rw [hs]
      have hfresh : ∀ u ∈ s.eventList, u.eventId ≠ s.lastEventId + 1 := by
        intro u hu he
        have := hle u hu
        omega
      refine ⟨?_, ?_, ?_, ?_, ?_⟩
      · simp only [List.map_append, List.map_cons, List.map_nil, SchedulerTask.setEventId]
        rw [List.nodup_append]
        refine ⟨hnd, by simp, ?_⟩
        intro a ha hb
        simp only [List.mem_singleton] at hb
        obtain ⟨u, hu, rfl⟩ := List.mem_map.1 ha
        exact hfresh u hu hb
      · intro u hu
        rcases List.mem_append.1 hu with hu | hu
        · exact Nat.le_succ_of_le (hle u hu)
        · simp only [List.mem_singleton] at hu
          subst hu
          exact Nat.le_refl _
      · intro id hid
        rcases Finset.mem_insert.1 hid with rfl | hid
        · exact ⟨task.setEventId (s.lastEventId + 1), by simp, rfl⟩
        · obtain ⟨u, hu, hue⟩ := hcar id hid
          exact ⟨u, List.mem_append_left _ hu, hue⟩
      · intro u hu
        rcases List.mem_append.1 hu with hu | hu
        · simp only [Finset.mem_insert, hfresh u hu, false_or]
          exact hpen u hu
        · simp only [List.mem_singleton] at hu
          subst hu
          simp only [SchedulerTask.setEventId, Finset.mem_insert, true_or, true_iff]
          intro hc
          have := hC _ hc
          omega
      · intro id hc
        exact Nat.le_succ_of_le (hC id hc)
    · have hs : (step s (Op.addEvent task)).1 = s := by
        simp [step, Scheduler.addEvent, hst]
      refine ⟨?_, by rw [hs]; omega⟩
      apply tracked_congr (C := C)
      · intro id
        simp [step]
      rw [hs]
      exact ⟨hnd, hle, hcar, hpen, hC⟩
  | stopEvent e =>
    by_cases hok : e ≠ 0 ∧ e ∈ s.eventIds
    · have hs : step s (Op.stopEvent e) =
          ({ s with eventIds := s.eventIds.erase e }, Event.stopped true) := by
        simp [step, Scheduler.stopEvent, hok.1, hok.2]
      rw [hs]
      refine ⟨?_, by simp⟩
      apply tracked_congr (C := fun id => C id ∨ id = e)
      · intro id
        simp [eq_comm]
      refine ⟨hnd, hle, ?_, ?_, ?_⟩
      · intro id hid
        exact hcar id (Finset.mem_of_mem_erase hid)
      · intro u hu
        simp only [Finset.mem_erase, not_or]
        rw [hpen u hu]
        exact ⟨fun h => ⟨h.2, h.1⟩, fun h => ⟨h.2, h.1⟩⟩
      · intro id hc
        rcases hc with hc | rfl
        · exact hC id hc
        · obtain ⟨u, hu, hue⟩ := hcar id hok.2
          exact hue ▸ hle u hu
    · have hs : step s (Op.stopEvent e) = (s, Event.stopped false) := by
        simp only [step, Scheduler.stopEvent]
        by_cases h0e : e = 0
        · simp [h0e]
        · have hm : e ∉ s.eventIds := fun hm => hok ⟨h0e, hm⟩
          simp [h0e, hm]
      rw [hs]
      refine ⟨?_, by simp⟩
      apply tracked_congr (C := C)
      · intro id
        simp
      exact ⟨hnd, hle, hcar, hpen, hC⟩
  | threadMain ret =>
    rcases threadMain_cases s ret with hr | ⟨t, htop, hm, hr⟩ | ⟨t, htop, hm, hr⟩
    · refine ⟨?_, by simp [step, hr]⟩
      apply tracked_congr (C := C)
      · intro id
        simp [step]
      simp only [step, hr]
      exact ⟨hnd, hle, hcar, hpen, hC⟩
    · refine ⟨?_, by simp [step, hr]⟩
      apply tracked_congr (C := C)
      · intro id
        simp [step]
      simp only [step, hr]
      exact tracked_pop ⟨hnd, hle, hcar, hpen, hC⟩ htop s.eventIds (fun id =>
        ⟨fun hid => ⟨fun he => hm (he ▸ hid), hid⟩, fun hid => hid.2⟩)
    · refine ⟨?_, by simp [step, hr]⟩
      apply tracked_congr (C := C)
      · intro id
        simp [step]
      simp only [step, hr]
      exact tracked_pop ⟨hnd, hle, hcar, hpen, hC⟩ htop (s.eventIds.erase t.eventId)
        (fun id => Finset.mem_erase)
  | shutdown =>
    have hd := shutdown_drained s
    refine ⟨?_, by simp [step, Scheduler.shutdown]⟩
    apply tracked_congr (C := C)
    · intro id
      simp [step]
    simp only [step]
    refine ⟨?_, ?_, ?_, ?_, hC⟩
    · rw [hd.2.1]
      simp
    · rw [hd.2.1]
      simp
    · rw [hd.2.2]
      simp
    · rw [hd.2.1]
      simp

theorem run_tracked (ops : List Op) (s : Scheduler) (C : Nat → Prop) (h : s.Tracked C)
    (h0 : ∀ t ∈ tasksOf ops, t.eventId = 0)
    (hroom : s.lastEventId + (tasksOf ops).length < 2 ^ 32) :
    (run s ops).1.Tracked
      (fun id => C id ∨ (Op.stopEvent id, Event.stopped true) ∈ ops.zip (run s ops).2) := by
  induction ops generalizing s C with
  | nil =>
    apply tracked_congr (C := C)
    · intro id
      simp [run]
    simpa [run] using h
  | cons op ops ih =>
    rw [tasksOf_cons] at h0 hroom
    simp only [List.length_append] at hroom
    have hs := step_tracked op h (fun t ht => h0 t (List.mem_append_left _ ht)) (by omega)
    have hrec := ih (step s op).1 _ hs.1 (fun t ht => h0 t (List.mem_append_right _ ht))
      (by have := hs.2; omega)
    apply tracked_congr (s := (run s (op :: ops)).1) _ hrec
    intro id
    simp only [run, List.zip_cons_cons, List.mem_cons]
    constructor
    · rintro ((hc | he) | hz)
      · exact Or.inl hc
      · exact Or.inr (Or.inl he.symm)
      · exact Or.inr (Or.inr hz)
    · rintro (hc | he | hz)
      · exact Or.inl (Or.inl hc)
      · exact Or.inl (Or.inr he.symm)
      · exact Or.inr hz

theorem step_carried {s : Scheduler} (op : Op)
    (h : ∀ id ∈ s.eventIds, ∃ t ∈ s.eventList, t.eventId = id) :
    ∀ id ∈ (step s op).1.eventIds, ∃ t ∈ (step s op).1.eventList, t.eventId = id := by
  cases op with
  | addEvent task =>
    by_cases hst : s.state = ThreadState.THREAD_STATE_RUNNING
    · obtain ⟨b, _, _, hbt, hbl, _⟩ := addEvent_running s task hst
      have hids : (s.addEvent task).sched.eventIds = insert b.eventId s.eventIds := by
        by_cases h0 : task.eventId = 0
        · simp only [Scheduler.addEvent, hst, h0, if_true, Option.some.injEq] at hbt ⊢
          rw [← hbt]
        · simp only [Scheduler.addEvent, hst, h0, if_true, if_false, Option.some.injEq] at hbt ⊢
          rw [← hbt]
      intro id hid
      simp only [step] at hid ⊢
      rw [hbl]
      rw [hids] at hid
      rcases Finset.mem_insert.1 hid with rfl | hid
      · exact ⟨b, by simp, rfl⟩
      · obtain ⟨u, hu, hue⟩ := h id hid
        exact ⟨u, List.mem_append_left _ hu, hue⟩
    · simpa [step, Scheduler.addEvent, hst] using h
  | stopEvent e =>
    simp only [step, Scheduler.stopEvent]
    by_cases h0 : e = 0
    · simpa [h0] using h
    · by_cases hm : e ∈ s.eventIds
      · simp only [h0, hm, not_true_eq_false, if_false]
        intro id hid
        exact h id (Finset.mem_of_mem_erase hid)
      · simpa [h0, hm] using h
  | threadMain ret =>
    rcases threadMain_cases s ret with hr | ⟨t, htop, hm, hr⟩ | ⟨t, htop, _, hr⟩
    · simpa [step, hr] using h
    · simp only [step, hr]
      intro id hid
      obtain ⟨u, hu, hue⟩ := h id hid
      rcases List.mem_cons.1 ((pop_perm htop).subset hu) with rfl | hu2
      · exact absurd (hue ▸ hid) hm
      · exact ⟨u, hu2, hue⟩
    · simp only [step, hr]
      intro id hid
      obtain ⟨u, hu, hue⟩ := h id (Finset.mem_of_mem_erase hid)
      rcases List.mem_cons.1 ((pop_perm htop).subset hu) with rfl | hu2
      · exact absurd hue (Ne.symm (Finset.ne_of_mem_erase hid))
      · exact ⟨u, hu2, hue⟩
  | shutdown =>
    have hd := shutdown_drained s
    simp only [step]
    rw [hd.2.2]
    simp

theorem run_carried (ops : List Op) (s : Scheduler)
    (h : ∀ id ∈ s.eventIds, ∃ t ∈ s.eventList, t.eventId = id) :
    ∀ id ∈ (run s ops).1.eventIds, ∃ t ∈ (run s ops).1.eventList, t.eventId = id := by
  induction ops generalizing s with
  | nil => simpa [run] using h
  | cons op ops ih =>
    simp only [run]
    exact ih _ (step_carried op h)

/-- C12, as stated, fails: two tasks are scheduled under identity 5 and the
timeout pass dispatches the first, which takes 5 out of the pending set. The
second task is in the heap, has not been popped and no `stopEvent` was ever
called, yet its identity is not in the pending set. -/
theorem pending_entry_not_in_set :
    (run Scheduler.init [Op.addEvent (mkTask 1 5 10), Op.addEvent (mkTask 2 5 20),
      Op.threadMain cv_status.timeout]).1.eventList = [mkTask 2 5 20] ∧
    5 ∉ (run Scheduler.init [Op.addEvent (mkTask 1 5 10), Op.addEvent (mkTask 2 5 20),
      Op.threadMain cv_status.timeout]).1.eventIds ∧
    (run Scheduler.init [Op.addEvent (mkTask 1 5 10), Op.addEvent (mkTask 2 5 20),
      Op.threadMain cv_status.timeout]).2 =
      [Event.added 5 true, Event.added 5 false,
       Event.dispatched (mkTask 1 5 10).setDontExpire true] := by
  decide

/-- C12, amended: in every state reached from the empty RUNNING scheduler,
every identity in the pending set is the identity of some task still in the
heap; and when every task comes with identity 0 and fewer than 2^32 tasks are
handed to `addEvent`, an identity is in the pending set exactly when an entry
of the heap carries it and no `stopEvent` on it has returned true. -/
theorem pending_set_invariant (ops : List Op) :
    (∀ id ∈ (run Scheduler.init ops).1.eventIds,
      ∃ t ∈ (run Scheduler.init ops).1.eventList, t.eventId = id) ∧
    ((∀ t ∈ tasksOf ops, t.eventId = 0) → (tasksOf ops).length < 2 ^ 32 →
      ∀ id, id ∈ (run Scheduler.init ops).1.eventIds ↔
        (∃ t ∈ (run Scheduler.init ops).1.eventList, t.eventId = id) ∧
        (Op.stopEvent id, Event.stopped true) ∉ ops.zip (run Scheduler.init ops).2) := by
  have hcar := run_carried ops Scheduler.init (by simp [Scheduler.init])
  refine ⟨hcar, ?_⟩
  intro h0 hroom id
  have hinit : Scheduler.init.Tracked (fun _ => False) := by
    simp [Scheduler.Tracked, Scheduler.init]
  have ht := run_tracked ops Scheduler.init (fun _ => False) hinit h0
    (by simpa [Scheduler.init] using hroom)
  obtain ⟨_, _, _, hpen, _⟩ := ht
  constructor
  · intro hid
    obtain ⟨t, htm, hte⟩ := hcar id hid
    refine ⟨⟨t, htm, hte⟩, ?_⟩
    have := (hpen t htm).1 (hte ▸ hid)
    simpa [hte] using this
  · rintro ⟨⟨t, htm, hte⟩, hz⟩
    have := (hpen t htm).2 (by simpa [hte] using hz)
    exact hte ▸ this

/-- An instance of amended C12: three tasks scheduled without identity, the
second cancelled and the third dispatched; of the two entries left in the heap
only the first is pending. -/
theorem pending_set_invariant_witness :
    (1 ∈ (run Scheduler.init [Op.addEvent (mkTask 1 0 30), Op.addEvent (mkTask 2 0 20),
        Op.addEvent (mkTask 3 0 10), Op.stopEvent 2,
        Op.threadMain cv_status.timeout]).1.eventIds) ∧
    (2 ∉ (run Scheduler.init [Op.addEvent (mkTask 1 0 30), Op.addEvent (mkTask 2 0 20),
        Op.addEvent (mkTask 3 0 10), Op.stopEvent 2,
        Op.threadMain cv_status.timeout]).1.eventIds) :=
  have h := (pending_set_invariant [Op.addEvent (mkTask 1 0 30), Op.addEvent (mkTask 2 0 20),
    Op.addEvent (mkTask 3 0 10), Op.stopEvent 2, Op.threadMain cv_status.timeout]).2
    (by decide) (by decide)
  ⟨(h 1).2 ⟨⟨mkTask 1 1 30, by decide, rfl⟩, by decide⟩,
   fun hm => ((h 2).1 hm).2 (by decide)⟩

/-! ## The result table of the scripting environment -/

/-- C18: the result table. `addResult r` returns the counter incremented
modulo 2^32 and `getResultByID` of that id then returns `r`. `removeResult id`
returns true exactly when `id` is a key of the table; after that
`getResultByID id` returns null and a second `removeResult id` returns false.
The entries under other ids are left as they were by `addResult` and by
`removeResult`. -/
theorem result_table_round_trip (env : ScriptEnvironment) (r : DBResult_ptr) (id : Nat) :
    (env.addResult r).2 = (env.lastResultId + 1) % 2 ^ 32 ∧
    (env.addResult r).1.lastResultId = (env.addResult r).2 ∧
    (env.addResult r).1.getResultByID (env.addResult r).2 = r ∧
    ((env.removeResult id).2 = true ↔ env.tempResults id ≠ none) ∧
    ((env.removeResult id).2 = true →
      (env.removeResult id).1.getResultByID id = none ∧
      (env.removeResult id).1.tempResults id = none ∧
      ((env.removeResult id).1.removeResult id).2 = false) ∧
    (∀ j, j ≠ (env.addResult r).2 →
      (env.addResult r).1.tempResults j = env.tempResults j ∧
      (env.addResult r).1.getResultByID j = env.getResultByID j) ∧
    (∀ j, j ≠ id →
      (env.removeResult id).1.tempResults j = env.tempResults j ∧
      (env.removeResult id).1.getResultByID j = env.getResultByID j) := by
  refine ⟨rfl, rfl, ?_, ?_, ?_, ?_, ?_⟩
  · simp [ScriptEnvironment.addResult, ScriptEnvironment.getResultByID]
  · cases h : env.tempResults id <;> simp [ScriptEnvironment.removeResult, h]
  · cases h : env.tempResults id <;>
      simp [ScriptEnvironment.removeResult, ScriptEnvironment.getResultByID, h]
  · intro j hj
    have hj2 : j ≠ (env.lastResultId + 1) % 2 ^ 32 := hj
    have hu : Function.update env.tempResults ((env.lastResultId + 1) % 2 ^ 32) (some r) j =
        env.tempResults j := Function.update_noteq hj2 _ _
    simp only [ScriptEnvironment.addResult, ScriptEnvironment.getResultByID, hu, and_self]
  · intro j hj
    cases h : env.tempResults id <;>
      simp [ScriptEnvironment.removeResult, ScriptEnvironment.getResultByID, h,
        Function.update_noteq hj]

/-- An instance of C18: from the counter `0xFFFFFFFF` the id wraps to 0; the
result stored is found under it, and is gone once removed. -/
theorem result_table_round_trip_witness :
    ((ScriptEnvironment.reset 0xFFFFFFFF).addResult (some 7)).2 = 0 ∧
    ((ScriptEnvironment.reset 0xFFFFFFFF).addResult (some 7)).1.getResultByID 0 = some 7 ∧
    ((((ScriptEnvironment.reset 0xFFFFFFFF).addResult (some 7)).1.removeResult 0).1.getResultByID
      0 = none) :=
  ⟨(result_table_round_trip (ScriptEnvironment.reset 0xFFFFFFFF) (some 7) 0).1.trans (by decide),
   (result_table_round_trip (ScriptEnvironment.reset 0xFFFFFFFF) (some 7) 0).2.2.1,
   ((result_table_round_trip ((ScriptEnvironment.reset 0xFFFFFFFF).addResult (some 7)).1 none
      0).2.2.2.2.1 (by decide)).1⟩

/-! ## The uid ranges of the scripting environment -/

/-- C19: the uid ranges of `getThingByUID`. A uid from `0x10000000` on is a
creature lookup in the game and a uid up to 65535 a unique-item lookup in the
game, neither of which reads the local map; a uid between them is looked up
in the local map alone. For a uid of that local range: after `insertItem` on
a uid not yet in the map, with an item that is not removed, the lookup returns
that item; `insertItem` on a uid already taken leaves the environment as it
was; and after `removeItemByUID` the lookup returns null. -/
theorem uid_lookup_ranges (env : ScriptEnvironment) (game : Game) (uid : Nat) (item : Item) :
    (0x10000000 ≤ uid →
      env.getThingByUID game uid = (game.getCreatureByID uid).map Thing.creature) ∧
    (uid ≤ 65535 →
      env.getThingByUID game uid =
        ((game.getUniqueItem uid).filter (fun i => !i.removed)).map Thing.item) ∧
    (65535 < uid → uid < 0x10000000 →
      env.getThingByUID game uid =
        ((env.localMap uid).filter (fun i => !i.removed)).map Thing.item ∧
      (env.localMap uid = none → item.removed = false →
        (env.insertItem uid item).1.getThingByUID game uid = some (Thing.item item)) ∧
      (env.localMap uid ≠ none →
        (env.insertItem uid item).1 = env ∧ (env.insertItem uid item).2 = false) ∧
      (env.removeItemByUID uid).1.getThingByUID game uid = none ∧
      (env.removeItemByUID uid).2 = none) := by
  refine ⟨?_, ?_, ?_⟩
  · intro h
    simp [ScriptEnvironment.getThingByUID, h]
  · intro h
    have h1 : ¬ uid ≥ 0x10000000 := by omega
    have h2 : uid % 2 ^ 16 = uid := Nat.mod_eq_of_lt (by omega)
    simp only [ScriptEnvironment.getThingByUID, h1, h, if_true, if_false, h2]
    cases hg : game.getUniqueItem uid with
    | none => simp
    | some i => cases hr : i.removed <;> simp [Option.filter, hr]
  · intro hlo hhi
    have h1 : ¬ uid ≥ 0x10000000 := by omega
    have h2 : ¬ uid ≤ 65535 := by omega
    refine ⟨?_, ?_, ?_, ?_, ?_⟩
    · simp only [ScriptEnvironment.getThingByUID, h1, h2, if_false]
      cases hg : env.localMap uid with
      | none => simp
      | some i => cases hr : i.removed <;> simp [Option.filter, hr]
    · intro hfree hrem
      simp [ScriptEnvironment.getThingByUID, ScriptEnvironment.insertItem, h1, h2, hfree, hrem]
    · intro htaken
      cases hg : env.localMap uid with
      | none => exact absurd hg htaken
      | some i => simp [ScriptEnvironment.insertItem, hg]
    · simp [ScriptEnvironment.getThingByUID, ScriptEnvironment.removeItemByUID, h1, h2]
    · simp [ScriptEnvironment.removeItemByUID, h2]

/-- An instance of C19: uid 70000 is in the local range; an item inserted
under it is found, a second insertion under it changes nothing, and after the
removal nothing is found. -/
theorem uid_lookup_ranges_witness :
    (((ScriptEnvironment.reset 0).insertItem 70000 { addr := 1, removed := false }).1.getThingByUID
      { getCreatureByID := fun _ => none, getUniqueItem := fun _ => none } 70000 =
        some (Thing.item { addr := 1, removed := false })) ∧
    (((ScriptEnvironment.reset 0).removeItemByUID 70000).1.getThingByUID
      { getCreatureByID := fun _ => none, getUniqueItem := fun _ => none } 70000 = none) :=
  have h := (uid_lookup_ranges (ScriptEnvironment.reset 0)
    { getCreatureByID := fun _ => none, getUniqueItem := fun _ => none } 70000
    { addr := 1, removed := false }).2.2 (by decide) (by decide)
  ⟨h.2.1 rfl rfl, h.2.2.2.1⟩

/-! ## The partition of a `TileItemVector` -/

theorem getTopItemCount_eq (v : TileItemVector) (hdown : v.downItemCount ≤ v.size)
    (hfit : v.size - v.downItemCount < 2 ^ 32) :
    v.getTopItemCount = v.size - v.downItemCount := by
  unfold TileItemVector.getTopItemCount
  omega

/-- On a vector of exactly 2^32 items, none of them a down item, the count of
top items wraps to 0. -/
theorem top_count_wraps (v : TileItemVector) (hs : v.size = 2 ^ 32)
    (hd : v.downItemCount = 0) :
    v.downItemCount ≤ v.size ∧
    v.getDownItemCount + v.getTopItemCount = 0 ∧
    v.getBeginTopItem ≠ v.getEndTopItem ∧
    v.getTopTopItem = none := by
  have htop : v.getTopItemCount = 0 := by
    unfold TileItemVector.getTopItemCount
    rw [hs, hd]
    decide
  refine ⟨by omega, ?_, ?_, ?_⟩
  · rw [htop]
    exact hd
  · unfold TileItemVector.getBeginTopItem TileItemVector.getEndDownItem
      TileItemVector.getEndTopItem
    rw [hs, hd]
    decide
  · unfold TileItemVector.getTopTopItem
    rw [if_pos htop]

theorem huge_size : TileItemVector.huge.size = 2 ^ 32 := by
  simp only [TileItemVector.size, TileItemVector.huge, List.length_replicate]

theorem deref_zero (v : TileItemVector) (h : 0 < v.size) :
    ∃ p, v.items.head? = some p ∧ v.deref 0 = p := by
  obtain ⟨items, down⟩ := v
  cases items with
  | nil => simp [TileItemVector.size] at h
  | cons p rest => exact ⟨p, rfl, by simp [TileItemVector.deref]⟩

theorem deref_last (v : TileItemVector) (h : 0 < v.size) :
    ∃ p, v.items.getLast? = some p ∧ v.deref (v.size - 1) = p := by
  have hlt : v.items.length - 1 < v.items.length := by
    have : 0 < v.items.length := h
    omega
  refine ⟨v.items[v.items.length - 1], ?_, ?_⟩
  · rw [List.getLast?_eq_getElem?, List.getElem?_eq_getElem hlt]
  · simp only [TileItemVector.deref, TileItemVector.size]
    rw [List.getElem?_eq_getElem hlt]

/-- C20, as stated, fails, in two ways. On a vector of two null pointers with
`downItemCount` 1 both ranges hold one element, yet `getTopDownItem` and
`getTopTopItem` return null, the pointer stored. On a vector of 2^32 items
with `downItemCount` 0 the count of top items, returned as a `uint32_t`, is 0:
the two counts add up to 0 and not to the size, and `getTopTopItem` returns
null although the top range is the whole vector. -/
theorem partition_fails :
    (TileItemVector.nulls.downItemCount ≤ TileItemVector.nulls.size ∧
      TileItemVector.nulls.downItemCount ≠ 0 ∧
      TileItemVector.nulls.getTopDownItem = none ∧
      TileItemVector.nulls.getBeginTopItem ≠ TileItemVector.nulls.getEndTopItem ∧
      TileItemVector.nulls.getTopTopItem = none) ∧
    (TileItemVector.huge.size = 2 ^ 32 ∧
      TileItemVector.huge.downItemCount ≤ TileItemVector.huge.size ∧
      TileItemVector.huge.getDownItemCount + TileItemVector.huge.getTopItemCount = 0 ∧
      TileItemVector.huge.getBeginTopItem ≠ TileItemVector.huge.getEndTopItem ∧
      TileItemVector.huge.getTopTopItem = none) :=
  ⟨⟨by decide, by decide, by decide, by decide, by decide⟩,
   ⟨huge_size, top_count_wraps TileItemVector.huge huge_size rfl⟩⟩

/-- C20, amended: for every `TileItemVector` with `downItemCount` at most the
size, the down range `[begin, begin + downItemCount)` and the top range
`[begin + downItemCount, end)` are such that every position of the vector is
in exactly one of them; `getTopDownItem` returns null when `downItemCount` is
0 and the first element as stored otherwise, hence null exactly when
`downItemCount` is 0 if that element is not a null pointer. When moreover
the size less `downItemCount` is below 2^32, the count of down items and
the count of top items add up to the size, and `getTopTopItem` returns null
when the top range is empty and the last element as stored otherwise, hence
null exactly when the top range is empty if that element is not a null
pointer. -/
theorem tile_item_vector_partition (v : TileItemVector)
    (hdown : v.downItemCount ≤ v.size) :
    (v.getBeginDownItem = 0 ∧ v.getEndDownItem = v.getBeginTopItem ∧
      v.getEndTopItem = v.size) ∧
    v.getEndDownItem - v.getBeginDownItem = v.getDownItemCount ∧
    (∀ i, i < v.size →
      ((v.getBeginDownItem ≤ i ∧ i < v.getEndDownItem) ↔
        ¬ (v.getBeginTopItem ≤ i ∧ i < v.getEndTopItem))) ∧
    (v.downItemCount = 0 → v.getTopDownItem = none) ∧
    (v.downItemCount ≠ 0 → ∃ p, v.items.head? = some p ∧ v.getTopDownItem = p) ∧
    (v.items.head? ≠ some none → (v.getTopDownItem = none ↔ v.downItemCount = 0)) ∧
    (v.size - v.downItemCount < 2 ^ 32 →
      v.getDownItemCount + v.getTopItemCount = v.size ∧
      v.getEndTopItem - v.getBeginTopItem = v.getTopItemCount ∧
      (v.getBeginTopItem = v.getEndTopItem → v.getTopTopItem = none) ∧
      (v.getBeginTopItem ≠ v.getEndTopItem →
        ∃ p, v.items.getLast? = some p ∧ v.getTopTopItem = p) ∧
      (v.items.getLast? ≠ some none →
        (v.getTopTopItem = none ↔ v.getBeginTopItem = v.getEndTopItem))) := by
  have hzero : v.downItemCount = 0 → v.getTopDownItem = none := by
    intro hz
    simp [TileItemVector.getTopDownItem, hz]
  have hfirst : v.downItemCount ≠ 0 →
      ∃ p, v.items.head? = some p ∧ v.getTopDownItem = p := by
    intro hne
    obtain ⟨p, hp, hd⟩ := deref_zero v (by omega)
    refine ⟨p, hp, ?_⟩
    simp only [TileItemVector.getTopDownItem, TileItemVector.getBeginDownItem, hne, if_false]
    exact hd
  refine ⟨⟨rfl, rfl, rfl⟩, ?_, ?_, hzero, hfirst, ?_, ?_⟩
  · simp only [TileItemVector.getEndDownItem, TileItemVector.getBeginDownItem,
      TileItemVector.getDownItemCount]
    omega
  · intro i hi
    simp only [TileItemVector.getEndDownItem, TileItemVector.getBeginDownItem,
      TileItemVector.getEndTopItem, TileItemVector.getBeginTopItem]
    omega
  · intro hnn
    constructor
    · intro hnone
      by_contra hne
      obtain ⟨p, hp, hd⟩ := hfirst hne
      rw [hnone] at hd
      exact hnn (hd ▸ hp)
    · exact hzero
  · intro hfit
    have htop := getTopItemCount_eq v hdown hfit
    have hbe : v.getBeginTopItem = v.getEndTopItem ↔ v.downItemCount = v.size := by
      simp only [TileItemVector.getBeginTopItem, TileItemVector.getEndDownItem,
        TileItemVector.getEndTopItem, Nat.zero_add]
    have hempty : v.getBeginTopItem = v.getEndTopItem → v.getTopTopItem = none := by
      intro he
      have hcount : v.getTopItemCount = 0 := by
        have := hbe.1 he
        omega
      simp [TileItemVector.getTopTopItem, hcount]
    have hlast : v.getBeginTopItem ≠ v.getEndTopItem →
        ∃ p, v.items.getLast? = some p ∧ v.getTopTopItem = p := by
      intro hne
      have hne2 : v.downItemCount ≠ v.size := fun h => hne (hbe.2 h)
      have hcount : v.getTopItemCount ≠ 0 := by omega
      obtain ⟨p, hp, hd⟩ := deref_last v (by omega)
      refine ⟨p, hp, ?_⟩
      simp only [TileItemVector.getTopTopItem, TileItemVector.getEndTopItem, hcount, if_false]
      exact hd
    refine ⟨?_, ?_, hempty, hlast, ?_⟩
    · simp only [TileItemVector.getDownItemCount, htop]
      omega
    · simp only [TileItemVector.getEndTopItem, TileItemVector.getBeginTopItem,
        TileItemVector.getEndDownItem, htop]
      omega
    · intro hnn
      constructor
      · intro hnone
        by_contra hne
        obtain ⟨p, hp, hd⟩ := hlast hne
        rw [hnone] at hd
        exact hnn (hd ▸ hp)
      · exact hempty

/-- An instance of amended C20: three items of which the first is a down
item. -/
theorem tile_item_vector_partition_witness :
    TileItemVector.three.getDownItemCount + TileItemVector.three.getTopItemCount =
      TileItemVector.three.size ∧
    (TileItemVector.three.getTopDownItem = none ↔ TileItemVector.three.downItemCount = 0) ∧
    (TileItemVector.three.getTopTopItem = none ↔
      TileItemVector.three.getBeginTopItem = TileItemVector.three.getEndTopItem) :=
  have h := tile_item_vector_partition TileItemVector.three (by decide)
  ⟨(h.2.2.2.2.2.2 (by decide)).1, h.2.2.2.2.2.1 (by decide),
   (h.2.2.2.2.2.2 (by decide)).2.2.2.2 (by decide)⟩

/-! ## The flags and the zone of a `Tile` -/

theorem testBit_high {x i : Nat} (hx : x < 2 ^ 32) (hi : 32 ≤ i) : x.testBit i = false :=
  Nat.testBit_lt_two_pow (Nat.lt_of_lt_of_le hx (Nat.pow_le_pow_right (by decide) hi))

theorem testBit_ones (i : Nat) : (0xFFFFFFFF : Nat).testBit i = decide (i < 32) := by
  have h : (0xFFFFFFFF : Nat) = 2 ^ 32 - 1 := by norm_num
  rw [h, Nat.testBit_two_pow_sub_one]

theorem setFlag_and (a f : Nat) : (a ||| f) &&& f = f := by
  apply Nat.eq_of_testBit_eq
  intro i
  rw [Nat.testBit_and, Nat.testBit_or]
  cases a.testBit i <;> cases f.testBit i <;> rfl

theorem resetFlag_and (a f : Nat) (hf : f < 2 ^ 32) : (a &&& (0xFFFFFFFF ^^^ f)) &&& f = 0 := by
  apply Nat.eq_of_testBit_eq
  intro i
  rw [Nat.testBit_and, Nat.testBit_and, Nat.testBit_xor, testBit_ones, Nat.zero_testBit]
  by_cases hi : i < 32
  · simp only [hi, decide_True]
    cases a.testBit i <;> cases f.testBit i <;> rfl
  · rw [testBit_high hf (Nat.le_of_not_lt hi)]
    simp

/-- C21: zone priority and flag round trip of a `Tile`, for 32-bit flags.
`getZone` returns ZONE_PROTECTION when the protection-zone flag is set, else
ZONE_NOPVP when the no-pvp flag is set, else ZONE_NOLOGOUT when the no-logout
flag is set, else ZONE_PVP when the pvp flag is set, else ZONE_NORMAL. For a
flag `f` that is not 0, `hasFlag f` is true after `setFlag f` and false after
`resetFlag f`, and either call leaves every bit outside `f` as it was (and
the word within 32 bits). -/
theorem tile_zone_and_flags (c : TileFlags_t) (t : Tile) (f : Nat)
    (hflags : t.flags < 2 ^ 32) (hf : f < 2 ^ 32) (hf0 : f ≠ 0) :
    (t.hasFlag c.TILESTATE_PROTECTIONZONE = true →
      t.getZone c = ZoneType_t.ZONE_PROTECTION) ∧
    (t.hasFlag c.TILESTATE_PROTECTIONZONE = false → t.hasFlag c.TILESTATE_NOPVPZONE = true →
      t.getZone c = ZoneType_t.ZONE_NOPVP) ∧
    (t.hasFlag c.TILESTATE_PROTECTIONZONE = false → t.hasFlag c.TILESTATE_NOPVPZONE = false →
      t.hasFlag c.TILESTATE_NOLOGOUT = true → t.getZone c = ZoneType_t.ZONE_NOLOGOUT) ∧
    (t.hasFlag c.TILESTATE_PROTECTIONZONE = false → t.hasFlag c.TILESTATE_NOPVPZONE = false →
      t.hasFlag c.TILESTATE_NOLOGOUT = false → t.hasFlag c.TILESTATE_PVPZONE = true →
      t.getZone c = ZoneType_t.ZONE_PVP) ∧
    (t.hasFlag c.TILESTATE_PROTECTIONZONE = false → t.hasFlag c.TILESTATE_NOPVPZONE = false →
      t.hasFlag c.TILESTATE_NOLOGOUT = false → t.hasFlag c.TILESTATE_PVPZONE = false →
      t.getZone c = ZoneType_t.ZONE_NORMAL) ∧
    (∀ g, t.hasFlag g = true ↔ t.flags &&& g ≠ 0) ∧
    (t.setFlag f).hasFlag f = true ∧
    (t.resetFlag f).hasFlag f = false ∧
    (∀ i, f.testBit i = false → (t.setFlag f).flags.testBit i = t.flags.testBit i) ∧
    (∀ i, f.testBit i = false → (t.resetFlag f).flags.testBit i = t.flags.testBit i) ∧
    (t.setFlag f).flags < 2 ^ 32 ∧
    (t.resetFlag f).flags < 2 ^ 32 := by
  refine ⟨?_, ?_, ?_, ?_, ?_, ?_, ?_, ?_, ?_, ?_, ?_, ?_⟩
  · intro h1
    simp [Tile.getZone, h1]
  · intro h1 h2
    simp [Tile.getZone, h1, h2]
  · intro h1 h2 h3
    simp [Tile.getZone, h1, h2, h3]
  · intro h1 h2 h3 h4
    simp [Tile.getZone, h1, h2, h3, h4]
  · intro h1 h2 h3 h4
    simp [Tile.getZone, h1, h2, h3, h4]
  · intro g
    simp [Tile.hasFlag, hasBitSet]
  · simp only [Tile.hasFlag, Tile.setFlag, hasBitSet, setFlag_and, decide_eq_true_eq]
    exact hf0
  · simp only [Tile.hasFlag, Tile.resetFlag, hasBitSet, resetFlag_and t.flags f hf]
    decide
  · intro i hi
    simp only [Tile.setFlag, Nat.testBit_or, hi, Bool.or_false]
  · intro i hi
    simp only [Tile.resetFlag, Nat.testBit_and, Nat.testBit_xor, testBit_ones, hi]
    by_cases h32 : i < 32
    · simp [h32]
    · rw [testBit_high hflags (Nat.le_of_not_lt h32)]
      simp
  · exact Nat.or_lt_two_pow hflags hf
  · exact Nat.lt_of_le_of_lt Nat.and_le_left hflags

/-- An instance of C21: with the protection-zone and the no-pvp flag both set
the zone is ZONE_PROTECTION; setting the no-logout flag makes `hasFlag` true
for it and resetting it makes `hasFlag` false. -/
theorem tile_zone_and_flags_witness :
    ({ flags := 12 } : Tile).getZone TileFlags_t.sample = ZoneType_t.ZONE_PROTECTION ∧
    (({ flags := 12 } : Tile).setFlag 16).hasFlag 16 = true ∧
    (({ flags := 12 } : Tile).resetFlag 16).hasFlag 16 = false :=
  have h := tile_zone_and_flags TileFlags_t.sample { flags := 12 } 16 (by decide) (by decide)
    (by decide)
  ⟨h.1 (by decide), h.2.2.2.2.2.2.1, h.2.2.2.2.2.2.2.1⟩

end Canary
